import Mathlib

/-!
# gcs: prerequisite lists and attribute sets

A shallow embedding of `model/gurps/prereq_list.go`, `model/gurps/attributes.go` and
`model/gurps/settings/general.go`, followed by the properties of
`PrereqList.Satisfied`, the methods of `Attributes`, `PrereqList.CloneResolvingEmpty`
and `General.EnsureValidity`.

Conventions of the embedding:
* a Go pointer that may be nil is an `Option`; a method that mutates
  `*xio.ByteBuffer` returns the buffer after the call next to its result;
* `fxp.Int` and `int` are `Int` (only comparisons and a counter bounded by the
  number of children are used, so no 64-bit wrap-around can occur);
* a Go map is an association list, its order standing for one iteration order; where
  a claim is about which map is written, the maps live on a heap, by address;
* a PrereqList struct that is cloned carries its address, its Parent pointer being the
  address of the enclosing list;
* code that lives outside the files at hand (`criteria`, `fxp`, the leaf
  prerequisites, the `Attribute` methods, the JSON codec) is a field of `Externals`
  or of `AttributeExternals`, or is modelled from the spec and says so.
-/

namespace Gcs

/-! ## Library types -/

/-- The type fxp.Int: a fixed-point number, given by its raw backing integer. -/
abbrev FxpInt := Int

/-- Modelled from the spec: fxp.Min, the MIN sentinel of the fixed-point type, the
least value of its signed 64-bit backing integer (the fxp package is not among the
files at hand). -/
def fxp_Min : FxpInt := -9223372036854775808

/-- The type criteria.NumericCompareType, a named comparator; only its equality
with `AnyNumber` and its `Matches` method are used. -/
abbrev NumericCompareType := String

/-- The struct criteria.Numeric: a comparator and the value compared against. -/
structure Numeric where
  Compare : NumericCompareType
  Qualifier : FxpInt
deriving DecidableEq

/-- The struct xio.ByteBuffer, given by its content. -/
structure ByteBuffer where
  data : String
deriving DecidableEq

/-- The method xio.ByteBuffer.WriteString: appends to the content. -/
def ByteBuffer.WriteString (b : ByteBuffer) (s : String) : ByteBuffer :=
  ⟨b.data ++ s⟩

/-- The method xio.ByteBuffer.Len: the number of bytes held. -/
def ByteBuffer.Len (b : ByteBuffer) : Nat :=
  b.data.utf8ByteSize

/-- The method xio.ByteBuffer.String: the content. -/
def ByteBuffer.String (b : ByteBuffer) : String :=
  b.data

/-- The scan of strings.ReplaceAll for a non-empty pattern `old`: `skip` counts the
characters of a match still to be passed over; at a position where `old` starts the
replacement `new` is emitted and the match is skipped, otherwise the character is
copied. -/
def replaceScan (old new : List Char) : Nat → List Char → List Char
  | _, [] => []
  | skip + 1, _ :: cs => replaceScan old new skip cs
  | 0, c :: cs =>
    if old.isPrefixOf (c :: cs) then new ++ replaceScan old new (old.length - 1) cs
    else c :: replaceScan old new 0 cs

/-- The Go function strings.ReplaceAll: every non-overlapping occurrence of `old`,
taken from the left, is replaced by `new`; an empty `old` matches before every
character and at the end. -/
def strings_ReplaceAll (s old new : String) : String :=
  if old.data = [] then ⟨new.data ++ s.data.flatMap (fun c => c :: new.data)⟩
  else ⟨replaceScan old.data new.data 0 s.data⟩

/-- Modelled from the spec: i18n.Text, the localisation lookup of the toolbox
library; the spec gives the header lines literally, so no translation is loaded and
the text is returned as it is. -/
def i18n_Text (s : String) : String := s

/-! ## Entities -/

/-- The struct Profile of profile.go, with the fields the embedded code reads. -/
structure Profile where
  TechLevel : String
  SizeModifier : Int
  SizeModifierBonus : FxpInt
deriving DecidableEq

/-- The struct PoolThreshold of an attribute definition (declared outside the files at
hand), with the fields the spec names: the state name, the formula of the boundary
value and the explanation. Its Threshold method is a field of `AttributeExternals`. -/
structure PoolThreshold where
  State : String
  Expression : String
  Explanation : String
deriving DecidableEq

/-- The struct AttributeDef (declared outside the files at hand), with the fields the
embedded code reads: the display order and the threshold bands. -/
structure AttributeDef where
  Order : Int
  Thresholds : List PoolThreshold
deriving DecidableEq

/-- The struct AttributeDefs: the map Set from definition ID to AttributeDef, as an
association list whose order stands for one iteration order of the map. -/
structure AttributeDefs where
  Set : List (String × AttributeDef)
deriving DecidableEq

/-- The struct SheetSettings, with the field the embedded code reads. -/
structure SheetSettings where
  Attributes : AttributeDefs
deriving DecidableEq

/-- The struct Entity, with the fields the embedded code reads. -/
structure Entity where
  Profile : Profile
  SheetSettings : SheetSettings
deriving DecidableEq

/-- The `exclude any` argument of Satisfied: nil or the identity of the excluded
object; it is only handed on to the children. -/
abbrev Exclude := Option Nat

/-- The struct Attribute (declared in attribute.go, which is not among the files at
hand), with the fields the spec names: the definition ID, the adjustment, the damage,
the captured display order and the entity it belongs to (nil until an owner is set). -/
structure Attribute where
  AttrID : String
  Adjustment : FxpInt
  Damage : FxpInt
  Order : Int
  Entity : Option Entity
deriving DecidableEq

/-- The code called by the embedded functions that is declared outside the files at
hand. Every theorem holds for all values of these fields. -/
structure Externals where
  /-- The constant criteria.AnyNumber. -/
  AnyNumber : NumericCompareType
  /-- The method NumericCompareType.Matches(qualifier, data). -/
  Matches : NumericCompareType → FxpInt → FxpInt → Bool
  /-- The first result of ExtractTechLevel, the only one Satisfied keeps. -/
  ExtractTechLevel : String → FxpInt
  /-- The function fxp.FromString: `none` stands for a non-nil error. -/
  FromString : String → Option FxpInt
  /-- The method Attribute.Current. -/
  Current : Attribute → FxpInt
  /-- The method Attribute.Maximum. -/
  Maximum : Attribute → FxpInt

/-! ## Prerequisites -/

/-- A prerequisite that is not a list. Its kinds are declared outside the files at
hand; it is given by its Satisfied method: from the entity, the exclusion target, the
buffer (`none` for nil, else its content) and the prefix, to the verdict and the text
it appends to the buffer (dropped when the buffer is nil). -/
structure Leaf where
  Satisfied : Entity → Exclude → Option ByteBuffer → String → Bool × String

mutual
/-- The interface Prereq: a leaf or a PrereqList. -/
inductive Prereq where
  | leaf (l : Leaf)
  | list (p : PrereqList)
/-- The struct PrereqList: the combinator flag All, the tech-level gate WhenTL and
the children Prereqs. The Parent back-reference and the constant Type tag are not
read by Satisfied and are left out. -/
inductive PrereqList where
  | mk (All : Bool) (WhenTL : Numeric) (Prereqs : List Prereq)
end

/-- The field PrereqList.All. -/
def PrereqList.All : PrereqList → Bool
  | .mk all _ _ => all

/-- The field PrereqList.WhenTL. -/
def PrereqList.WhenTL : PrereqList → Numeric
  | .mk _ whenTL _ => whenTL

/-- The field PrereqList.Prereqs. -/
def PrereqList.Prereqs : PrereqList → List Prereq
  | .mk _ _ prereqs => prereqs

mutual
/-- The interface call `one.Satisfied(entity, exclude, buffer, prefix)`, dispatched on
the kind of prerequisite. -/
def Prereq.Satisfied (x : Externals) :
    Prereq → Entity → Exclude → Option ByteBuffer → String → Bool × Option ByteBuffer
  | .leaf l, entity, exclude, buffer, pfx =>
    ((l.Satisfied entity exclude buffer pfx).1,
      match buffer with
      | some b => some (b.WriteString (l.Satisfied entity exclude buffer pfx).2)
      | none => none)
  | .list p, entity, exclude, buffer, pfx => PrereqList.Satisfied x p entity exclude buffer pfx
/-- The method PrereqList.Satisfied (prereq_list.go, lines 104 to 140). -/
def PrereqList.Satisfied (x : Externals) :
    PrereqList → Entity → Exclude → Option ByteBuffer → String → Bool × Option ByteBuffer
  | .mk all whenTL prereqs, entity, exclude, buffer, pfx =>
    let tl := x.ExtractTechLevel entity.Profile.TechLevel
    let tl := if tl < 0 then 0 else tl
    if whenTL.Compare ≠ x.AnyNumber ∧ x.Matches whenTL.Compare whenTL.Qualifier tl = false then
      (true, buffer)
    else
      let loc : Option ByteBuffer :=
        match buffer with
        | some _ => some ⟨""⟩
        | none => none
      let r := PrereqList.children x prereqs entity exclude pfx 0 loc
      let count := r.1
      let loc : Option ByteBuffer :=
        match r.2 with
        | some l =>
          if l.Len ≠ 0 then
            some ((ByteBuffer.mk "").WriteString (strings_ReplaceAll l.String "\n" "\n\u00a0\u00a0"))
          else some l
        | none => none
      let satisfied := count == prereqs.length || (!all && decide (count > 0))
      match buffer, loc with
      | some b, some l =>
        if !satisfied then
          (satisfied,
            some (((b.WriteString pfx).WriteString
              (if all then i18n_Text "Requires all of:"
                else i18n_Text "Requires at least one of:")).WriteString l.String))
        else (satisfied, some b)
      | _, _ => (satisfied, buffer)
/-- The loop `for _, one := range p.Prereqs` of PrereqList.Satisfied (lines 119 to
123): `count` and `loc` are the counter and the local buffer so far; the result is
their value after the loop. -/
def PrereqList.children (x : Externals) :
    List Prereq → Entity → Exclude → String → Nat → Option ByteBuffer → Nat × Option ByteBuffer
  | [], _, _, _, count, loc => (count, loc)
  | one :: rest, entity, exclude, pfx, count, loc =>
    let r := Prereq.Satisfied x one entity exclude loc pfx
    PrereqList.children x rest entity exclude pfx (if r.1 then count + 1 else count) r.2
end

/-! ## Attribute sets -/

/-- The struct Attributes: the map Set from attribute ID to Attribute, as an
association list whose order stands for one iteration order of the map. -/
structure Attributes where
  Set : List (String × Attribute)
deriving DecidableEq

/-- The Go library function sort.Slice: sorts by `less`, with no promise on the order
of elements that compare equal. Insertion sort is taken as one such sort. -/
def sort_Slice {α : Type} (less : α → α → Bool) (list : List α) : List α :=
  list.insertionSort (fun u v => less v u = false)

/-- The method Attributes.List (attributes.go, lines 71 to 80). -/
def Attributes.List (a : Attributes) : List Attribute :=
  let list := a.Set.foldl (fun list kv => list ++ [kv.2]) []
  sort_Slice (fun u v => decide (u.Order < v.Order)) list

/-- The method Attributes.Current (attributes.go, lines 100 to 108). -/
def Attributes.Current (x : Externals) (a : Attributes) (attrID : String) : FxpInt :=
  match a.Set.lookup attrID with
  | some attr => x.Current attr
  | none =>
    match x.FromString attrID with
    | some v => v
    | none => fxp_Min

/-- The method Attributes.Maximum (attributes.go, lines 111 to 119). -/
def Attributes.Maximum (x : Externals) (a : Attributes) (attrID : String) : FxpInt :=
  match a.Set.lookup attrID with
  | some attr => x.Maximum attr
  | none =>
    match x.FromString attrID with
    | some v => v
    | none => fxp_Min

/-! ## General settings -/

/-- Modelled from the spec: fxp.From, the fixed-point value of an integer. The spec
has a signed integer-backed decimal with a fixed number of fractional digits; four
digits are taken, as in the sample parser. -/
def fxp_From (n : Int) : FxpInt := n * 10000

/-- Modelled from the spec: the constant fxp.One. -/
def fxp_One : FxpInt := fxp_From 1

/-- Modelled from the spec: the constant fxp.Thirty. -/
def fxp_Thirty : FxpInt := fxp_From 30

/-- Modelled from the spec: fxp.ResetIfOutOfRange, the Clamp of the spec, which
returns the default when the value falls outside `[min, max]` and the value
otherwise (the fxp package is not among the files at hand). -/
def fxp_ResetIfOutOfRange (value min max dflt : FxpInt) : FxpInt :=
  if value < min ∨ value > max then dflt else value

/-- Modelled from the spec: fxp.ResetIfOutOfRangeInt, the same Clamp on `int`. -/
def fxp_ResetIfOutOfRangeInt (value min max dflt : Int) : Int :=
  if value < min ∨ value > max then dflt else value

/-- The variable InitialPointsDef (general.go, line 30). -/
def InitialPointsDef : FxpInt := fxp_From 150

/-- The variable InitialPointsMin, left at the zero value (line 31). -/
def InitialPointsMin : FxpInt := 0

/-- The variable InitialPointsMax (line 32). -/
def InitialPointsMax : FxpInt := fxp_From 9999999

/-- The variable TooltipDelayDef, `fxp.FromStringForced("0.75")` (line 33): 75
hundredths. -/
def TooltipDelayDef : FxpInt := fxp_From 75 / 100

/-- The variable TooltipDelayMin, left at the zero value (line 34). -/
def TooltipDelayMin : FxpInt := 0

/-- The variable TooltipDelayMax (line 35). -/
def TooltipDelayMax : FxpInt := fxp_Thirty

/-- The variable TooltipDismissalDef (line 36). -/
def TooltipDismissalDef : FxpInt := fxp_From 60

/-- The variable TooltipDismissalMin (line 37). -/
def TooltipDismissalMin : FxpInt := fxp_One

/-- The variable TooltipDismissalMax (line 38). -/
def TooltipDismissalMax : FxpInt := fxp_From 3600

/-- The variable ImageResolutionDef (line 39). -/
def ImageResolutionDef : Int := 200

/-- The variable ImageResolutionMin (line 40). -/
def ImageResolutionMin : Int := 50

/-- The variable ImageResolutionMax (line 41). -/
def ImageResolutionMax : Int := 400

/-- The variable InitialUIScaleMin (line 42). -/
def InitialUIScaleMin : Int := 50

/-- The variable InitialUIScaleMax (line 43). -/
def InitialUIScaleMax : Int := 400

/-- The variable InitialListUIScaleDef (line 44). -/
def InitialListUIScaleDef : Int := 100

/-- The variable InitialSheetUIScaleDef (line 45). -/
def InitialSheetUIScaleDef : Int := 133

/-- The struct General (general.go, lines 49 to 62). -/
structure General where
  DefaultPlayerName : String
  DefaultTechLevel : String
  CalendarName : String
  InitialPoints : FxpInt
  TooltipDelay : FxpInt
  TooltipDismissal : FxpInt
  InitialListUIScale : Int
  InitialSheetUIScale : Int
  ImageResolution : Int
  AutoFillProfile : Bool
  AutoAddNaturalAttacks : Bool
  IncludeUnspentPointsInTotal : Bool
deriving DecidableEq

/-- The method General.EnsureValidity (general.go, lines 130 to 137): the six
assignments in their order. -/
def General.EnsureValidity (s : General) : General :=
  let s := { s with InitialPoints :=
    (fxp_ResetIfOutOfRange s.InitialPoints InitialPointsMin InitialPointsMax InitialPointsDef) }
  let s := { s with TooltipDelay :=
    (fxp_ResetIfOutOfRange s.TooltipDelay TooltipDelayMin TooltipDelayMax TooltipDelayDef) }
  let s := { s with TooltipDismissal :=
    (fxp_ResetIfOutOfRange s.TooltipDismissal TooltipDismissalMin TooltipDismissalMax
      TooltipDismissalDef) }
  let s := { s with ImageResolution :=
    (fxp_ResetIfOutOfRangeInt s.ImageResolution ImageResolutionMin ImageResolutionMax
      ImageResolutionDef) }
  let s := { s with InitialListUIScale :=
    (fxp_ResetIfOutOfRangeInt s.InitialListUIScale InitialUIScaleMin InitialUIScaleMax
      InitialListUIScaleDef) }
  { s with InitialSheetUIScale :=
    (fxp_ResetIfOutOfRangeInt s.InitialSheetUIScale InitialUIScaleMin InitialUIScaleMax
      InitialSheetUIScaleDef) }

/-! ## Cloning prerequisite lists -/

/-- The address of a PrereqList struct: what a `*PrereqList` that is not nil holds.
A new struct takes the next free address. -/
abbrev ListAddr := Nat

/-- The type prereq.Type, a named kind of prerequisite. -/
abbrev PrereqType := String

/-- The constant prereq.List, the kind of a PrereqList (declared outside the files at
hand); only its identity is used. -/
def prereq_List : PrereqType := "prereq_list"

mutual
/-- A value of the interface Prereq with what cloning touches: a leaf with its Parent
pointer, or a PrereqList struct. -/
inductive PrereqNode where
  | leaf (Parent : Option ListAddr) (l : Leaf)
  | list (p : PrereqListNode)
/-- The struct PrereqList with all its fields (prereq_list.go, lines 26 to 32) and the
address it lives at. Parent is the non-owning pointer to the enclosing list. -/
inductive PrereqListNode where
  | mk (addr : ListAddr) (Parent : Option ListAddr) (Type_ : PrereqType) (All : Bool)
      (WhenTL : Numeric) (Prereqs : List PrereqNode)
end

/-- The address of a PrereqList struct. -/
def PrereqListNode.addr : PrereqListNode → ListAddr
  | .mk addr _ _ _ _ _ => addr

/-- The field PrereqList.Parent. -/
def PrereqListNode.Parent : PrereqListNode → Option ListAddr
  | .mk _ parent _ _ _ _ => parent

/-- The field PrereqList.Type. -/
def PrereqListNode.Type_ : PrereqListNode → PrereqType
  | .mk _ _ ty _ _ _ => ty

/-- The field PrereqList.All. -/
def PrereqListNode.All : PrereqListNode → Bool
  | .mk _ _ _ all _ _ => all

/-- The field PrereqList.WhenTL. -/
def PrereqListNode.WhenTL : PrereqListNode → Numeric
  | .mk _ _ _ _ whenTL _ => whenTL

/-- The field PrereqList.Prereqs. -/
def PrereqListNode.Prereqs : PrereqListNode → List PrereqNode
  | .mk _ _ _ _ _ prereqs => prereqs

/-- The Clone method of the leaf prerequisites (declared outside the files at hand):
from the Parent and the content of the leaf and the `parent` argument to the Parent and
the content of the copy. -/
abbrev LeafClone := Option ListAddr → Leaf → Option ListAddr → Option ListAddr × Leaf

/-- The function NewPrereqList (prereq_list.go, lines 35 to 40): a new struct at the
next free address, with Type and All set and the other fields at their zero value. -/
def NewPrereqList (next : ListAddr) : PrereqListNode × ListAddr :=
  (.mk next none prereq_List true ⟨"", 0⟩ [], next + 1)

/-- The method PrereqList.ShouldOmit (lines 43 to 45), on a receiver that may be
nil. -/
def PrereqListNode.ShouldOmit (p : Option PrereqListNode) : Bool :=
  match p with
  | none => true
  | some q => q.Prereqs.length == 0

mutual
/-- The interface call `p.Prereqs[i].Clone(&clone)`, dispatched on the kind of
prerequisite; for a list it is PrereqList.Clone (lines 58 to 60). `next` is the next
free address, returned as it is after the call. -/
def PrereqNode.Clone (lc : LeafClone) :
    PrereqNode → Option ListAddr → ListAddr → PrereqNode × ListAddr
  | .leaf par l, parent, next => (.leaf (lc par l parent).1 (lc par l parent).2, next)
  | .list p, parent, next =>
    let r := PrereqListNode.CloneAsPrereqList lc p parent next
    (.list r.1, r.2)
/-- The method PrereqList.CloneAsPrereqList (lines 63 to 71): the copy `clone` lives at
the next free address, takes the fields of `p`, then the given parent and the clones
of the children, each made with the address of `clone` as its parent. -/
def PrereqListNode.CloneAsPrereqList (lc : LeafClone) :
    PrereqListNode → Option ListAddr → ListAddr → PrereqListNode × ListAddr
  | .mk _ _ ty all whenTL prereqs, parent, next =>
    let r := PrereqListNode.cloneChildren lc prereqs (some next) (next + 1)
    (.mk next parent ty all whenTL r.1, r.2)
/-- The loop `for i := range p.Prereqs` of CloneAsPrereqList (lines 67 to 69). -/
def PrereqListNode.cloneChildren (lc : LeafClone) :
    List PrereqNode → Option ListAddr → ListAddr → List PrereqNode × ListAddr
  | [], _, next => ([], next)
  | one :: rest, parent, next =>
    let r := PrereqNode.Clone lc one parent next
    let rs := PrereqListNode.cloneChildren lc rest parent r.2
    (r.1 :: rs.1, rs.2)
end

/-- The method PrereqList.CloneResolvingEmpty (lines 76 to 87), on a receiver that may
be nil; the result is nil or a new struct, and the next free address after the call. -/
def PrereqListNode.CloneResolvingEmpty (lc : LeafClone) (p : Option PrereqListNode)
    (isContainer pruneIfEmpty : Bool) (next : ListAddr) : Option PrereqListNode × ListAddr :=
  match p with
  | some q =>
    if pruneIfEmpty && PrereqListNode.ShouldOmit (some q) then (none, next)
    else
      let r := q.CloneAsPrereqList lc none next
      (some r.1, r.2)
  | none =>
    if isContainer then (none, next)
    else
      let r := NewPrereqList next
      (some r.1, r.2)

/-! ## Building, loading, cloning and fingerprinting attribute sets -/

/-- Modelled from the spec: the method Attribute.ID (attribute.go is not among the
files at hand), the definition ID the attribute instantiates. -/
def Attribute.ID (a : Attribute) : String := a.AttrID

/-- The code called by the methods of Attributes embedded below that is declared
outside the files at hand. Values of type `uint64` are natural numbers; none is
computed on here. Every theorem holds for all values of these fields. -/
structure AttributeExternals where
  /-- The function NewAttribute(entity, attrID, order). -/
  NewAttribute : Entity → String → Int → Attribute
  /-- The method Attribute.Clone(entity). -/
  Clone : Attribute → Entity → Attribute
  /-- The method Attribute.crc64(c). -/
  crc64 : Attribute → Nat → Nat
  /-- The function crc.Number(c, n). -/
  crcNumber : Nat → Int → Nat
  /-- The method Attribute.AttributeDef; `none` stands for nil. -/
  AttributeDef : Attribute → Option AttributeDef
  /-- The Go library function strings.EqualFold: equality ignoring letter case. -/
  EqualFold : String → String → Bool
  /-- The method PoolThreshold.Threshold(entity), on an entity pointer. -/
  Threshold : PoolThreshold → Option Entity → FxpInt
  /-- The call json.Unmarshal(data, &list); `none` stands for a non-nil error. -/
  Unmarshal : String → Option (List Attribute)
  /-- The call e.Encode(list): the bytes written and whether the error is nil. -/
  Encode : List Attribute → String × Bool

/-- The map assignment `m[k] = v`: the value of an existing key is replaced, a new key
is added (its place in the iteration order is of no account). -/
def mapAssign (m : List (String × Attribute)) (k : String) (v : Attribute) :
    List (String × Attribute) :=
  if k ∈ m.map Prod.fst then m.map (fun kv => if kv.1 = k then (k, v) else kv)
  else m ++ [(k, v)]

/-- The map deletion `delete(m, k)`. -/
def mapDelete (m : List (String × Attribute)) (k : String) : List (String × Attribute) :=
  m.filter (fun kv => kv.1 ≠ k)

/-- The function NewAttributes (attributes.go, lines 30 to 36). -/
def NewAttributes (x : AttributeExternals) (entity : Entity) : Attributes :=
  ⟨entity.SheetSettings.Attributes.Set.foldl
    (fun set kv => mapAssign set kv.1 (x.NewAttribute entity kv.1 kv.2.Order)) []⟩

/-- The loop `for i, one := range list` of UnmarshalJSON (lines 54 to 57), from
position `i` on, on the map built so far. -/
def unmarshalLoop : List Attribute → Nat → List (String × Attribute) → List (String × Attribute)
  | [], _, set => set
  | one :: rest, i, set =>
    unmarshalLoop rest (i + 1)
      (mapAssign set ({ one with Order := (i : Int) }).ID { one with Order := (i : Int) })

/-- The method Attributes.UnmarshalJSON (lines 48 to 59): the receiver after the call
and whether the returned error is nil. On an error the receiver is left as it was. -/
def Attributes.UnmarshalJSON (x : AttributeExternals) (a : Attributes) (data : String) :
    Attributes × Bool :=
  match x.Unmarshal data with
  | none => (a, false)
  | some list => (⟨unmarshalLoop list 0 []⟩, true)

/-- The method Attributes.Clone (lines 62 to 68), as the map the returned set holds. -/
def Attributes.Clone (x : AttributeExternals) (a : Attributes) (entity : Entity) : Attributes :=
  ⟨a.Set.foldl (fun set kv => mapAssign set kv.1 (x.Clone kv.2 entity)) []⟩

/-- The loop `for _, one := range a.List()` of CRC64 (lines 85 to 87). -/
def crcLoop (x : AttributeExternals) : List Attribute → Nat → Nat
  | [], c => c
  | one :: rest, c => crcLoop x rest (x.crc64 one c)

/-- The method Attributes.CRC64 (lines 83 to 89). -/
def Attributes.CRC64 (x : AttributeExternals) (a : Attributes) : Nat :=
  crcLoop x a.List (x.crcNumber 0 a.Set.length)

/-- The loop
`for _, one := range def.Thresholds` of PoolThreshold (lines 125 to 129): the value
returned from inside the loop, or `none` when the loop ends. -/
def thresholdLoop (x : AttributeExternals) (state : String) (entity : Option Entity) :
    List PoolThreshold → Option FxpInt
  | [] => none
  | one :: rest =>
    if x.EqualFold one.State state then some (x.Threshold one entity)
    else thresholdLoop x state entity rest

/-- The method Attributes.PoolThreshold (lines 122 to 133). -/
def Attributes.PoolThreshold (x : AttributeExternals) (a : Attributes)
    (attrID state : String) : FxpInt :=
  match a.Set.lookup attrID with
  | some attr =>
    match x.AttributeDef attr with
    | some d =>
      match thresholdLoop x state attr.Entity d.Thresholds with
      | some v => v
      | none => fxp_Min
    | none => fxp_Min
  | none => fxp_Min

/-- The maps from attribute ID to Attribute that live on the Go heap: `maps m` is the
content of the map at address `m`, and `next` the address the next `make` returns. -/
structure MapHeap where
  next : Nat
  maps : Nat → List (String × Attribute)

/-- The call `make(map[string]*Attribute)`: a new, empty map at the next address. -/
def MapHeap.make (h : MapHeap) : MapHeap × Nat :=
  (⟨h.next + 1, Function.update h.maps h.next []⟩, h.next)

/-- The assignment `m[k] = v` on the map at address `m`. -/
def MapHeap.assign (h : MapHeap) (m : Nat) (k : String) (v : Attribute) : MapHeap :=
  ⟨h.next, Function.update h.maps m (mapAssign (h.maps m) k v)⟩

/-- The call `delete(m, k)` on the map at address `m`. -/
def MapHeap.delete (h : MapHeap) (m : Nat) (k : String) : MapHeap :=
  ⟨h.next, Function.update h.maps m (mapDelete (h.maps m) k)⟩

/-- The method Attributes.Clone (lines 62 to 68) on the heap: `a` is the address of
the receiver's map; the result is the heap after the call and the address of the map
of the returned set. -/
def Attributes.CloneOnHeap (x : AttributeExternals) (h : MapHeap) (a : Nat)
    (entity : Entity) : MapHeap × Nat :=
  let r := h.make
  ((h.maps a).foldl (fun hh kv => hh.assign r.2 kv.1 (x.Clone kv.2 entity)) r.1, r.2)

/-! ## Cost, size modifier and factory defaults -/

/-- The method Attributes.Cost (attributes.go, lines 92 to 97). `PointCost` is the
method Attribute.PointCost, declared outside the files at hand. -/
def Attributes.Cost (PointCost : Attribute → FxpInt) (a : Attributes) (attrID : String) :
    FxpInt :=
  match a.Set.lookup attrID with
  | some attr => PointCost attr
  | none => 0

/-- The value of a Go `int` expression: the exact result wrapped into the signed 64-bit
range. -/
def wrapInt (n : Int) : Int :=
  (n + 9223372036854775808) % 18446744073709551616 - 9223372036854775808

/-- A value that a Go `int` can hold. -/
def isInt (n : Int) : Prop :=
  -9223372036854775808 ≤ n ∧ n < 9223372036854775808

instance (n : Int) : Decidable (isInt n) := by
  unfold isInt
  exact inferInstance

/-- The method Profile.AdjustedSizeModifier (profile.go, lines 76 to 78). `asInt` is
the conversion `fxp.As[int]`, declared outside the files at hand. -/
def Profile.AdjustedSizeModifier (asInt : FxpInt → Int) (p : Profile) : Int :=
  wrapInt (p.SizeModifier + asInt p.SizeModifierBonus)

/-- The method Profile.SetAdjustedSizeModifier (profile.go, lines 81 to 86): the
profile after the call. -/
def Profile.SetAdjustedSizeModifier (asInt : FxpInt → Int) (p : Profile) (value : Int) :
    Profile :=
  if value ≠ p.AdjustedSizeModifier asInt then
    { p with SizeModifier := wrapInt (value - asInt p.SizeModifierBonus) }
  else p

/-- The function NewGeneral (general.go, lines 65 to 85). `name` is the name of the
current user, or the environment variable USER when there is none. -/
def NewGeneral (name : String) : General where
  DefaultPlayerName := name
  DefaultTechLevel := "3"
  CalendarName := ""
  InitialPoints := InitialPointsDef
  TooltipDelay := TooltipDelayDef
  TooltipDismissal := TooltipDismissalDef
  InitialListUIScale := InitialListUIScaleDef
  InitialSheetUIScale := InitialSheetUIScaleDef
  ImageResolution := ImageResolutionDef
  AutoFillProfile := true
  AutoAddNaturalAttacks := true
  IncludeUnspentPointsInTotal := true

/-! ## Recent files -/

/-- The constant maxRecentFiles (settings.go, line 35). -/
def maxRecentFiles : Nat := 20

/-- The struct Settings (settings.go, lines 46 to 60), with the field the embedded code
touches. A slice is the list of its elements. -/
structure Settings where
  RecentFiles : List String
deriving DecidableEq

/-- The code called by ListRecentFiles and AddRecentFile that is declared outside the
files at hand. Every theorem holds for all values of these fields. -/
structure SettingsExternals where
  /-- The function fs.FileIsReadable. -/
  FileIsReadable : String → Bool
  /-- The Go library function path.Ext. -/
  Ext : String → String
  /-- Whether runtime.GOOS is toolbox.MacOS or toolbox.WindowsOS. -/
  foldsCase : Bool
  /-- The Go library function strings.ToLower. -/
  ToLower : String → String
  /-- The function library.AcceptableExtensions. -/
  AcceptableExtensions : List String
  /-- The Go library function filepath.Abs; `none` stands for a non-nil error. -/
  Abs : String → Option String

/-- The builtin `copy(dst, src)`: the first min(len(dst), len(src)) elements of `dst`
become those of `src`, read before any is written (the slices may overlap); the result
is `dst` after the call. -/
def copySlice (dst src : List String) : List String :=
  src.take (min dst.length src.length) ++ dst.drop (min dst.length src.length)

/-- The loop `for _, one := range s.RecentFiles` of ListRecentFiles (lines 123 to
127), on the files still to visit and the list built so far. -/
def listReadable (readable : String → Bool) : List String → List String → List String
  | [], list => list
  | one :: rest, list => listReadable readable rest (if readable one then list ++ [one] else list)

/-- The method Settings.ListRecentFiles (lines 121 to 133): the returned list and the
settings after the call. -/
def Settings.ListRecentFiles (x : SettingsExternals) (s : Settings) : List String × Settings :=
  let list := listReadable x.FileIsReadable s.RecentFiles []
  if list.length ≠ s.RecentFiles.length then
    (list, { s with RecentFiles := (copySlice (List.replicate list.length "") list) })
  else (list, s)

/-- The index at which the loop `for i, f := range s.RecentFiles` of AddRecentFile
(lines 149 to 156) finds `f == full`, counted from `i`; `none` when it ends without. -/
def findRecent (full : String) : List String → Nat → Option Nat
  | [], _ => none
  | f :: rest, i => if f = full then some i else findRecent full rest (i + 1)

/-- The three statements of lines 151 to 153: the elements after index `i` move one
place down, the last place is cleared and cut off. -/
def removeRecent (files : List String) (i : Nat) : List String :=
  let files := files.take i ++ copySlice (files.drop i) (files.drop (i + 1))
  let files := files.set (files.length - 1) ""
  files.take (files.length - 1)

/-- The statements of lines 157 to 162: a place is appended, every element moves one
place up, `full` takes index 0 and the slice is cut to maxRecentFiles. -/
def pushRecent (files : List String) (full : String) : List String :=
  let files := files ++ [""]
  let files := files.take 1 ++ copySlice (files.drop 1) files
  let files := files.set 0 full
  if files.length > maxRecentFiles then files.take maxRecentFiles else files

/-- The loop `for _, one := range library.AcceptableExtensions()` of AddRecentFile
(lines 142 to 166), on the extensions still to visit: the settings after the method
returns. -/
def addRecentLoop (x : SettingsExternals) (s : Settings) (filePath ext : String) :
    List String → Settings
  | [] => s
  | one :: rest =>
    if one = ext then
      match x.Abs filePath with
      | none => s
      | some full =>
        if x.FileIsReadable full then
          let files :=
            match findRecent full s.RecentFiles 0 with
            | some i => removeRecent s.RecentFiles i
            | none => s.RecentFiles
          { s with RecentFiles := (pushRecent files full) }
        else s
    else addRecentLoop x s filePath ext rest

/-- The extension AddRecentFile compares (lines 137 to 141). -/
def recentExt (x : SettingsExternals) (filePath : String) : String :=
  if x.foldsCase then x.ToLower (x.Ext filePath) else x.Ext filePath

/-- The method Settings.AddRecentFile (lines 136 to 167): the settings after the
call. -/
def Settings.AddRecentFile (x : SettingsExternals) (s : Settings) (filePath : String) :
    Settings :=
  addRecentLoop x s filePath (recentExt x filePath) x.AcceptableExtensions

/-! ## The point-pools and body panels -/

/-- The struct Entity as the sheet panels read it: the fields embedded above, and the
field Attributes, the instance set, which is kept beside them because an Attribute
refers back to its Entity. -/
structure SheetEntity where
  Entity : Entity
  Attributes : Attributes

/-- The struct gurps.Body (declared outside the files at hand), with the field the
body panel reads. -/
structure Body where
  Name : String
deriving DecidableEq

/-- The code called by the sheet panels that is declared outside the files at hand.
Every theorem holds for all values of these fields. -/
structure PanelExternals where
  /-- The function gurps.SheetSettingsFor(entity). -/
  SheetSettingsFor : Entity → SheetSettings
  /-- The method AttributeDefs.CRC64. -/
  defsCRC64 : AttributeDefs → Nat
  /-- The field SheetSettings.BodyType. -/
  BodyType : SheetSettings → Body
  /-- The method Body.CRC64. -/
  bodyCRC64 : Body → Nat

/-- The struct PointPoolsPanel (point_pools.go, lines 28 to 32): the entity as it now
is, the stored checksum, and in place of the widgets the calls of rebuild made so far,
newest first, each with the definitions it was given. -/
structure PointPoolsPanel where
  entity : SheetEntity
  crc : Nat
  rebuilt : List AttributeDefs

/-- The method PointPoolsPanel.rebuild (lines 62 to 113), as the call it is. -/
def PointPoolsPanel.rebuild (p : PointPoolsPanel) (attrs : AttributeDefs) : PointPoolsPanel :=
  { p with rebuilt := attrs :: p.rebuilt }

/-- The function NewPointPoolsPanel (lines 35 to 60); the layout calls are left out. -/
def NewPointPoolsPanel (px : PanelExternals) (entity : SheetEntity) : PointPoolsPanel :=
  let p : PointPoolsPanel := ⟨entity, 0, []⟩
  let attrs := (px.SheetSettingsFor p.entity.Entity).Attributes
  let p := { p with crc := px.defsCRC64 attrs }
  p.rebuild attrs

/-- The method PointPoolsPanel.Sync (lines 130 to 137); the layout call is left out. -/
def PointPoolsPanel.Sync (x : AttributeExternals) (px : PanelExternals) (p : PointPoolsPanel) :
    PointPoolsPanel :=
  let attrs := p.entity.Attributes
  let crc := attrs.CRC64 x
  if crc ≠ p.crc then
    ({ p with crc := crc }).rebuild (px.SheetSettingsFor p.entity.Entity).Attributes
  else p

/-- The struct BodyPanel (body.go, lines 27 to 34): the entity as it now is, the stored
checksum, the title of the border, and in place of the widgets the calls of addContent
made so far, newest first. -/
structure BodyPanel where
  entity : SheetEntity
  crc : Nat
  title : String
  content : List Body

/-- The method BodyPanel.addContent (body.go, lines 80 to 93), as the call it is. -/
def BodyPanel.addContent (p : BodyPanel) (locations : Body) : BodyPanel :=
  { p with content := locations :: p.content }

/-- The function NewBodyPanel (body.go, lines 37 to 78); the layout calls are left
out. -/
def NewBodyPanel (px : PanelExternals) (entity : SheetEntity) : BodyPanel :=
  let p : BodyPanel := ⟨entity, 0, "", []⟩
  let locations := px.BodyType (px.SheetSettingsFor entity.Entity)
  let p := { p with crc := px.bodyCRC64 locations }
  let p := { p with title := locations.Name }
  p.addContent locations

/-- The method BodyPanel.Sync (body.go, lines 172 to 180); the layout call is left
out. -/
def BodyPanel.Sync (px : PanelExternals) (p : BodyPanel) : BodyPanel :=
  let locations := px.BodyType (px.SheetSettingsFor p.entity.Entity)
  let crc := px.bodyCRC64 locations
  if crc ≠ p.crc then
    ({ p with crc := crc, title := locations.Name }).addContent locations
  else p

/-! ## Notions of the specification -/

/-- The gate of a list short-circuits: the comparator is not `any` and does not
match the entity's tech level, a negative level counting as 0. -/
def gateShortCircuits (x : Externals) (p : PrereqList) (entity : Entity) : Prop :=
  p.WhenTL.Compare ≠ x.AnyNumber ∧
    x.Matches p.WhenTL.Compare p.WhenTL.Qualifier
      (max (x.ExtractTechLevel entity.Profile.TechLevel) 0) = false

instance (x : Externals) (p : PrereqList) (entity : Entity) :
    Decidable (gateShortCircuits x p entity) := by
  unfold gateShortCircuits
  exact inferInstance

/-- The buffer the children of a list write to: nil when the caller's buffer is nil,
a fresh empty buffer otherwise. -/
def localBuffer (buffer : Option ByteBuffer) : Option ByteBuffer :=
  buffer.map (fun _ => ⟨""⟩)

/-- The verdicts of the children of a list, in child order, each child being
evaluated on the local buffer as the children before it left it. -/
def childVerdicts (x : Externals) :
    List Prereq → Entity → Exclude → Option ByteBuffer → String → List Bool
  | [], _, _, _, _ => []
  | one :: rest, entity, exclude, loc, pfx =>
    (Prereq.Satisfied x one entity exclude loc pfx).1 ::
      childVerdicts x rest entity exclude (Prereq.Satisfied x one entity exclude loc pfx).2 pfx

/-- What a prerequisite wrote to a buffer holding `loc`: the content after the call
without the content before it. -/
def Prereq.wrote (x : Externals) (one : Prereq) (entity : Entity) (exclude : Exclude)
    (loc : ByteBuffer) (pfx : String) : String :=
  match (Prereq.Satisfied x one entity exclude (some loc) pfx).2 with
  | some b => ⟨b.data.data.drop loc.data.data.length⟩
  | none => ""

/-- What each child of a list wrote to the local buffer, in child order. -/
def childTexts (x : Externals) :
    List Prereq → Entity → Exclude → ByteBuffer → String → List String
  | [], _, _, _, _ => []
  | one :: rest, entity, exclude, loc, pfx =>
    Prereq.wrote x one entity exclude loc pfx ::
      childTexts x rest entity exclude
        (loc.WriteString (Prereq.wrote x one entity exclude loc pfx)) pfx

/-- The content of the local buffer when the loop over the children of a list that was
given a non-nil buffer ends. -/
def localText (x : Externals) (p : PrereqList) (entity : Entity) (exclude : Exclude)
    (pfx : String) : String :=
  match (PrereqList.children x p.Prereqs entity exclude pfx 0 (some ⟨""⟩)).2 with
  | some l => l.data
  | none => ""

/-- Concatenation of a list of texts. -/
def concatTexts (ts : List String) : String :=
  ⟨(ts.map String.data).flatten⟩

/-- The re-indentation in the words of the specification: every newline becomes a
newline followed by two non-breaking spaces, every other character is kept. -/
def reindent (s : String) : String :=
  ⟨s.data.flatMap (fun c => if c = '\n' then ['\n', '\u00a0', '\u00a0'] else [c])⟩

/-- The header line of an unsatisfied list. -/
def header (all : Bool) : String :=
  if all then "Requires all of:" else "Requires at least one of:"

/-- The keys of a map. -/
def mapKeys (m : List (String × Attribute)) : List String :=
  m.map Prod.fst

/-- A stored sequence with the Order of each element set to its position, the first
position being `i`. -/
def renumberFrom : Nat → List Attribute → List Attribute
  | _, [] => []
  | i, one :: rest => { one with Order := (i : Int) } :: renumberFrom (i + 1) rest

mutual
/-- The nesting depth of a prerequisite: 0 for a leaf, and for a list one more than
the deepest of its children. -/
def Prereq.depth : Prereq → Nat
  | .leaf _ => 0
  | .list p => p.depth
/-- The nesting depth of a list. -/
def PrereqList.depth : PrereqList → Nat
  | .mk _ _ prereqs => PrereqList.depthAll prereqs + 1
/-- The depth of the deepest of a sequence of prerequisites. -/
def PrereqList.depthAll : List Prereq → Nat
  | [] => 0
  | one :: rest => max one.depth (PrereqList.depthAll rest)
end

/-- A prerequisite wrapped in `n` lists, each with the given combinator, an `any` gate
and the next one as its only child. -/
def nest (x : Externals) (all : Bool) : Nat → Prereq → Prereq
  | 0, one => one
  | n + 1, one => .list (.mk all ⟨x.AnyNumber, 0⟩ [nest x all n one])

mutual
/-- The verdict of every leaf of a prerequisite is independent of the buffer it is
given. -/
def Prereq.sinkFree : Prereq → Prop
  | .leaf l =>
    ∀ (entity : Entity) (exclude : Exclude) (b1 b2 : Option ByteBuffer) (pfx : String),
      (l.Satisfied entity exclude b1 pfx).1 = (l.Satisfied entity exclude b2 pfx).1
  | .list p => p.sinkFree
/-- The verdict of every leaf of a list is independent of the buffer it is given. -/
def PrereqList.sinkFree : PrereqList → Prop
  | .mk _ _ prereqs => PrereqList.sinkFreeAll prereqs
/-- The verdict of every leaf of a sequence of prerequisites is independent of the
buffer it is given. -/
def PrereqList.sinkFreeAll : List Prereq → Prop
  | [] => True
  | one :: rest => one.sinkFree ∧ PrereqList.sinkFreeAll rest
end

/-- The externals with the extracted tech level replaced by `f` of it. -/
def Externals.mapTechLevel (x : Externals) (f : FxpInt → FxpInt) : Externals :=
  { x with ExtractTechLevel := fun s => f (x.ExtractTechLevel s) }

/-- The method ParentList of the interface Prereq (prereq_list.go, lines 53 to 55, for
a list). -/
def PrereqNode.ParentList : PrereqNode → Option ListAddr
  | .leaf parent _ => parent
  | .list p => p.Parent

mutual
/-- What Satisfied reads of a prerequisite: the leaf, or the list without its address,
Parent and Type. -/
def PrereqNode.view : PrereqNode → Prereq
  | .leaf _ l => .leaf l
  | .list p => .list p.view
/-- What Satisfied reads of a PrereqList struct. -/
def PrereqListNode.view : PrereqListNode → PrereqList
  | .mk _ _ _ all whenTL prereqs => .mk all whenTL (PrereqListNode.viewAll prereqs)
/-- What Satisfied reads of the children of a list. -/
def PrereqListNode.viewAll : List PrereqNode → List Prereq
  | [] => []
  | one :: rest => one.view :: PrereqListNode.viewAll rest
end

/-! ## Sample data -/

/-- Reads an unsigned decimal integer; `none` for any other text. -/
def sampleDigits (s : String) : Option Nat :=
  if s.data = [] then none
  else s.data.foldl
    (fun acc c => acc.bind (fun n => if c.isDigit then some (10 * n + (c.toNat - 48)) else none))
    (some 0)

/-- A sample of the external code: the comparators `any`, `at_least`, `at_most` and
`is`, a tech level and a fixed-point parser that read an unsigned decimal integer into
a fixed-point value of four fractional digits, and attributes of base 10. -/
def sampleExternals : Externals where
  AnyNumber := "any"
  Matches := fun c q d =>
    if c = "at_least" then decide (q ≤ d)
    else if c = "at_most" then decide (d ≤ q)
    else if c = "is" then decide (d = q)
    else true
  ExtractTechLevel := fun s => ((sampleDigits s).getD 0 : Nat) * 10000
  FromString := fun s => (sampleDigits s).map (fun n => (n : Int) * 10000)
  Current := fun a => 100000 + a.Adjustment - a.Damage
  Maximum := fun a => 100000 + a.Adjustment

/-- A configuration of three attribute definitions; `hp` is a pool with two bands. -/
def sampleSheetSettings : SheetSettings :=
  ⟨⟨[("st", ⟨0, []⟩), ("dx", ⟨1, []⟩),
    ("hp", ⟨2, [⟨"Tired", "5", "half move"⟩, ⟨"Collapse", "0", "may pass out"⟩]⟩)]⟩⟩

/-- An entity of tech level 3 with the sample configuration. -/
def sampleEntity : Entity := ⟨⟨"3", 0, 0⟩, sampleSheetSettings⟩

/-- A leaf that is never satisfied and explains itself with `text`. -/
def failingLeaf (text : String) : Leaf := ⟨fun _ _ _ _ => (false, text)⟩

/-- A leaf that is always satisfied and writes nothing. -/
def passingLeaf : Leaf := ⟨fun _ _ _ _ => (true, "")⟩

/-- An AtLeastOne list without a gate and without children. -/
def emptyAtLeastOne : PrereqList := .mk false ⟨"any", 0⟩ []

/-- An AtLeastOne list without a gate: a failing and a passing leaf. -/
def mixedAtLeastOne : PrereqList :=
  .mk false ⟨"any", 0⟩ [.leaf (failingLeaf "\nneeds A"), .leaf passingLeaf]

/-- An All list without a gate: a failing and a passing leaf (scenario C). -/
def mixedAll : PrereqList :=
  .mk true ⟨"any", 0⟩ [.leaf (failingLeaf "\nneeds A"), .leaf passingLeaf]

/-- An All list without a gate whose only child fails without explaining itself. -/
def silentAll : PrereqList := .mk true ⟨"any", 0⟩ [.leaf (failingLeaf "")]

/-- An All list without a gate: two failing leaves with explanations of two lines. -/
def twoLineAll : PrereqList :=
  .mk true ⟨"any", 0⟩ [.leaf (failingLeaf "\nA1\nA2"), .leaf (failingLeaf "\nB1\nB2")]

/-- A set of three attributes whose map order is not their display order; the ID `12`
reads as a number. -/
def sampleAttributes : Attributes :=
  ⟨[("iq", ⟨"iq", 0, 0, 2, none⟩), ("st", ⟨"st", 10000, 0, 0, none⟩), ("12", ⟨"12", 20000, 10000, 1, none⟩)]⟩

/-- A leaf Clone that copies the content and takes the given parent. -/
def copyLeaf : LeafClone := fun _ l parent => (parent, l)

/-- A PrereqList struct at address 7 without children. -/
def emptyNode : PrereqListNode := .mk 7 none prereq_List true ⟨"any", 0⟩ []

/-- A PrereqList struct at address 3 that holds a leaf and, at address 4, an empty
list. -/
def nestedNode : PrereqListNode :=
  .mk 3 none prereq_List false ⟨"any", 0⟩
    [.leaf (some 3) passingLeaf, .list (.mk 4 (some 3) prereq_List true ⟨"any", 0⟩ [])]

/-- Splits a text at its commas; `cur` holds the characters of the current piece in
reverse. -/
def sampleSplit : List Char → List Char → List String
  | [], cur => [String.mk cur.reverse]
  | c :: cs, cur =>
    if c = ',' then String.mk cur.reverse :: sampleSplit cs [] else sampleSplit cs (c :: cur)

/-- A sample of the external code of attribute sets: attributes are built and cloned
field by field, the checksum steps multiply by 31 and add, the definition is looked up
in the configuration of the owner, a threshold is the number its formula spells, and
the stored form is the list of IDs, separated by commas, with `!` for broken data and a
stored order of 99 in every element. -/
def sampleAttributeExternals : AttributeExternals where
  NewAttribute := fun entity attrID order => ⟨attrID, 0, 0, order, some entity⟩
  Clone := fun v entity => { v with Entity := some entity }
  crc64 := fun v c => (c * 31 + v.Adjustment.toNat + 1) % 2 ^ 64
  crcNumber := fun c n => (c * 31 + n.toNat) % 2 ^ 64
  AttributeDef := fun v =>
    match v.Entity with
    | some entity => entity.SheetSettings.Attributes.Set.lookup v.AttrID
    | none => none
  EqualFold := fun s t => s.data.map Char.toLower == t.data.map Char.toLower
  Threshold := fun one _ => ((sampleDigits one.Expression).getD 0 : Nat) * 10000
  Unmarshal := fun data =>
    if '!' ∈ data.data then none
    else if data = "" then some []
    else some ((sampleSplit data.data []).map (fun id => ⟨id, 0, 0, 99, none⟩))
  Encode := fun list => (String.intercalate "," (list.map Attribute.ID), true)

/-- A set of two attributes that share the Order 0. -/
def tiedAttributes : Attributes :=
  ⟨[("a", ⟨"a", 10000, 0, 0, none⟩), ("b", ⟨"b", 20000, 0, 0, none⟩)]⟩

/-- The set of the IDs `st` and `hp` owned by the sample entity. -/
def ownedAttributes : Attributes :=
  ⟨[("st", ⟨"st", 0, 0, 0, some sampleEntity⟩), ("hp", ⟨"hp", 0, 30000, 2, some sampleEntity⟩)]⟩

/-- A heap of two maps: the sample set at address 0, the tied set at address 1. -/
def sampleHeap : MapHeap :=
  ⟨2, fun m => if m = 0 then sampleAttributes.Set else if m = 1 then tiedAttributes.Set else []⟩

/-- A sample of the external code of the recent files: a file is readable unless its
name holds `!`, the extension starts at the last dot, case is folded, three extensions
are acceptable and a relative path is taken from `/home/`. -/
def sampleSettingsExternals : SettingsExternals where
  FileIsReadable := fun f => !('!' ∈ f.data)
  Ext := fun p =>
    if '.' ∈ p.data then
      String.mk ('.' :: (p.data.reverse.takeWhile (fun c => c ≠ '.')).reverse)
    else ""
  foldsCase := true
  ToLower := fun s => String.mk (s.data.map Char.toLower)
  AcceptableExtensions := [".gcs", ".adq", ".skl"]
  Abs := fun p => if p = "" then none else if p.data.head? = some '/' then some p
    else some ("/home/" ++ p)

/-- Settings with three recent files, the second of which is gone. -/
def sampleSettings : Settings :=
  ⟨["/home/a.gcs", "/home/b!.gcs", "/home/c.gcs"]⟩

/-- A sample of the external code of the sheet panels: the settings are those of the
entity, the checksum of the definitions folds their orders, and the body type is named
after the number of definitions. -/
def samplePanelExternals : PanelExternals where
  SheetSettingsFor := fun entity => entity.SheetSettings
  defsCRC64 := fun defs => defs.Set.foldl (fun c kv => (c * 31 + kv.2.Order.toNat + 7) % 2 ^ 64) 0
  BodyType := fun settings => ⟨if settings.Attributes.Set.length = 0 then "none" else "humanoid"⟩
  bodyCRC64 := fun body => body.Name.length

/-- The sample entity with the instance set NewAttributes builds for it. -/
def sampleSheetEntity : SheetEntity :=
  ⟨sampleEntity, NewAttributes sampleAttributeExternals sampleEntity⟩

/-- A list over a passing leaf and, nested in a second list, a failing leaf that
writes a line. -/
def deepAll : PrereqList :=
  .mk true ⟨"any", 0⟩
    [.leaf passingLeaf, .list (.mk false ⟨"any", 0⟩ [.leaf (failingLeaf "\nneeds A")])]

/-- Externals as the sample ones, whose extraction yields the negative level -2. -/
def negativeExternals : Externals :=
  { sampleExternals with ExtractTechLevel := fun _ => -2 }

/-- A list gated on a tech level of at least 0 over a failing leaf. -/
def gatedAtZero : PrereqList := .mk true ⟨"at_least", 0⟩ [.leaf (failingLeaf "\nneeds A")]

/-! ## Helper lemmas on texts and buffers -/

theorem utf8ByteSize_eq_zero_iff (s : String) : s.utf8ByteSize = 0 ↔ s = "" := by
  cases s with
  | mk cs =>
    cases cs with
    | nil => exact ⟨fun _ => rfl, fun _ => rfl⟩
    | cons c cs =>
      have hc := Char.utf8Size_pos c
      constructor
      · intro h
        change String.utf8ByteSize.go cs + c.utf8Size = 0 at h
        omega
      · intro h
        exact absurd (congrArg String.data h) (by simp)

theorem replaceScan_newline (new : List Char) (cs : List Char) :
    replaceScan ['\n'] new 0 cs = cs.flatMap (fun c => if c = '\n' then new else [c]) := by
  induction cs with
  | nil => rfl
  | cons c cs ih =>
    by_cases hc : c = '\n'
    · subst hc
      simp [replaceScan, ih]
    · have hc2 : ¬ ('\n' = c) := fun h => hc h.symm
      simp [replaceScan, ih, hc, hc2]

theorem strings_ReplaceAll_newline (s : String) :
    strings_ReplaceAll s "\n" "\n\u00a0\u00a0" = reindent s := by
  unfold strings_ReplaceAll reindent
  have h1 : ("\n" : String).data = ['\n'] := rfl
  have h2 : ("\n\u00a0\u00a0" : String).data = ['\n', '\u00a0', '\u00a0'] := rfl
  rw [h1, h2, if_neg (by simp), replaceScan_newline]

/-! ## Helper lemmas on PrereqList.Satisfied -/

theorem techLevel_clamp (tl : Int) : (if tl < 0 then 0 else tl) = max tl 0 := by
  rcases lt_or_le tl 0 with h | h
  · rw [if_pos h, max_eq_right (le_of_lt h)]
  · rw [if_neg (not_lt.mpr h), max_eq_left h]

theorem PrereqList.Satisfied_of_gate (x : Externals) (p : PrereqList) (entity : Entity)
    (exclude : Exclude) (buffer : Option ByteBuffer) (pfx : String)
    (h : gateShortCircuits x p entity) :
    PrereqList.Satisfied x p entity exclude buffer pfx = (true, buffer) := by
  cases p with
  | mk all whenTL prereqs =>
    unfold gateShortCircuits at h
    simp only [PrereqList.WhenTL] at h
    unfold PrereqList.Satisfied
    simp only [techLevel_clamp]
    rw [if_pos h]

theorem PrereqList.children_count (x : Externals) (ps : List Prereq) (entity : Entity)
    (exclude : Exclude) (pfx : String) (count : Nat) (loc : Option ByteBuffer) :
    (PrereqList.children x ps entity exclude pfx count loc).1 =
      count + (childVerdicts x ps entity exclude loc pfx).count true := by
  induction ps generalizing count loc with
  | nil => simp [PrereqList.children, childVerdicts]
  | cons one rest ih =>
    simp only [PrereqList.children, childVerdicts]
    rw [ih]
    cases (Prereq.Satisfied x one entity exclude loc pfx).1 <;> simp; omega

theorem localBuffer_eq (buffer : Option ByteBuffer) :
    (match buffer with
      | some _ => some (ByteBuffer.mk "")
      | none => none) = localBuffer buffer := by
  cases buffer <;> rfl

theorem PrereqList.Satisfied_verdict (x : Externals) (p : PrereqList) (entity : Entity)
    (exclude : Exclude) (buffer : Option ByteBuffer) (pfx : String)
    (h : ¬ gateShortCircuits x p entity) :
    (PrereqList.Satisfied x p entity exclude buffer pfx).1 =
      ((childVerdicts x p.Prereqs entity exclude (localBuffer buffer) pfx).count true
          == p.Prereqs.length ||
        (!p.All &&
          decide ((childVerdicts x p.Prereqs entity exclude (localBuffer buffer) pfx).count
            true > 0))) := by
  cases p with
  | mk all whenTL prereqs =>
    unfold gateShortCircuits at h
    simp only [PrereqList.WhenTL] at h
    unfold PrereqList.Satisfied
    simp only [techLevel_clamp, PrereqList.Prereqs, PrereqList.All]
    rw [if_neg h]
    simp only [localBuffer_eq, PrereqList.children_count, Nat.zero_add]
    split
    · split <;> rfl
    · rfl

theorem childVerdicts_length (x : Externals) (ps : List Prereq) (entity : Entity)
    (exclude : Exclude) (loc : Option ByteBuffer) (pfx : String) :
    (childVerdicts x ps entity exclude loc pfx).length = ps.length := by
  induction ps generalizing loc with
  | nil => rfl
  | cons one rest ih => simp [childVerdicts, ih]

/-! ## The combinators and the tech-level gate -/

/-- C1, as the code has it: an AtLeastOne list (All = false) whose tech-level gate does
not short-circuit is satisfied if and only if it has no children or at least one child
evaluates to satisfied. -/
theorem atLeastOne_satisfied_iff (x : Externals) (p : PrereqList) (entity : Entity)
    (exclude : Exclude) (buffer : Option ByteBuffer) (pfx : String)
    (hAll : p.All = false) (hGate : ¬ gateShortCircuits x p entity) :
    (PrereqList.Satisfied x p entity exclude buffer pfx).1 = true ↔
      (p.Prereqs = [] ∨
        true ∈ childVerdicts x p.Prereqs entity exclude (localBuffer buffer) pfx) := by
  rw [PrereqList.Satisfied_verdict x p entity exclude buffer pfx hGate, hAll]
  have hlen := childVerdicts_length x p.Prereqs entity exclude (localBuffer buffer) pfx
  have hle := List.count_le_length true
    (childVerdicts x p.Prereqs entity exclude (localBuffer buffer) pfx)
  rw [← List.count_pos_iff]
  cases hp : p.Prereqs with
  | nil =>
    rw [hp] at hlen
    have h0 : (childVerdicts x [] entity exclude (localBuffer buffer) pfx).count true = 0 := by
      simp [childVerdicts]
    simp [h0]
  | cons one rest =>
    rw [hp] at hlen hle
    simp only [List.length_cons] at hlen hle ⊢
    simp only [Bool.not_false, Bool.true_and, Bool.or_eq_true, beq_iff_eq, decide_eq_true_eq,
      gt_iff_lt, reduceCtorEq, false_or]
    omega

/-- C1, witness: the list of a failing and a passing leaf. -/
theorem atLeastOne_satisfied_iff_witness :
    mixedAtLeastOne.All = false ∧ ¬ gateShortCircuits sampleExternals mixedAtLeastOne sampleEntity ∧
      ((PrereqList.Satisfied sampleExternals mixedAtLeastOne sampleEntity none
          (some ⟨""⟩) "").1 = true ↔
        (mixedAtLeastOne.Prereqs = [] ∨
          true ∈ childVerdicts sampleExternals mixedAtLeastOne.Prereqs sampleEntity none
            (localBuffer (some ⟨""⟩)) "")) :=
  ⟨by decide, by decide,
    atLeastOne_satisfied_iff sampleExternals mixedAtLeastOne sampleEntity none (some ⟨""⟩) ""
      (by decide) (by decide)⟩

/-- C1, counterexample: an AtLeastOne list with zero children and no gate is satisfied
although no child evaluates to satisfied. -/
theorem atLeastOne_empty_counterexample :
    emptyAtLeastOne.All = false ∧ emptyAtLeastOne.Prereqs = [] ∧
      ¬ gateShortCircuits sampleExternals emptyAtLeastOne sampleEntity ∧
      (PrereqList.Satisfied sampleExternals emptyAtLeastOne sampleEntity none none "").1 = true ∧
      true ∉ childVerdicts sampleExternals emptyAtLeastOne.Prereqs sampleEntity none
        (localBuffer none) "" :=
  ⟨rfl, rfl, by decide, by decide, by decide⟩

/-- C2: an All list (All = true) whose tech-level gate does not short-circuit is
satisfied if and only if every one of its children evaluates to satisfied; with zero
children it is satisfied. -/
theorem all_satisfied_iff (x : Externals) (p : PrereqList) (entity : Entity)
    (exclude : Exclude) (buffer : Option ByteBuffer) (pfx : String)
    (hAll : p.All = true) (hGate : ¬ gateShortCircuits x p entity) :
    ((PrereqList.Satisfied x p entity exclude buffer pfx).1 = true ↔
        ∀ v ∈ childVerdicts x p.Prereqs entity exclude (localBuffer buffer) pfx, v = true) ∧
      (p.Prereqs = [] → (PrereqList.Satisfied x p entity exclude buffer pfx).1 = true) := by
  have hlen := childVerdicts_length x p.Prereqs entity exclude (localBuffer buffer) pfx
  have key : (PrereqList.Satisfied x p entity exclude buffer pfx).1 = true ↔
      ∀ v ∈ childVerdicts x p.Prereqs entity exclude (localBuffer buffer) pfx, v = true := by
    rw [PrereqList.Satisfied_verdict x p entity exclude buffer pfx hGate, hAll]
    simp only [Bool.not_true, Bool.false_and, Bool.or_false, beq_iff_eq]
    rw [← hlen, List.count_eq_length]
    exact forall₂_congr (fun _ _ => eq_comm)
  refine ⟨key, fun hp => key.mpr ?_⟩
  rw [hp]
  intro v hv
  simp [childVerdicts] at hv

/-- C2, witness: the All list of a failing and a passing leaf. -/
theorem all_satisfied_iff_witness :
    mixedAll.All = true ∧ ¬ gateShortCircuits sampleExternals mixedAll sampleEntity ∧
      (((PrereqList.Satisfied sampleExternals mixedAll sampleEntity none none "").1 = true ↔
          ∀ v ∈ childVerdicts sampleExternals mixedAll.Prereqs sampleEntity none
            (localBuffer none) "", v = true) ∧
        (mixedAll.Prereqs = [] →
          (PrereqList.Satisfied sampleExternals mixedAll sampleEntity none none "").1 = true)) :=
  ⟨by decide, by decide,
    all_satisfied_iff sampleExternals mixedAll sampleEntity none none "" (by decide) (by decide)⟩

/-- C3: a list whose WhenTL comparator is not `any` and does not match the entity's
tech level (a negative level counting as 0) is satisfied, whatever the combinator and
whatever the children. -/
theorem techLevel_gate_satisfied (x : Externals) (all : Bool) (whenTL : Numeric)
    (prereqs : List Prereq) (entity : Entity) (exclude : Exclude)
    (buffer : Option ByteBuffer) (pfx : String)
    (hAny : whenTL.Compare ≠ x.AnyNumber)
    (hNoMatch : x.Matches whenTL.Compare whenTL.Qualifier
      (max (x.ExtractTechLevel entity.Profile.TechLevel) 0) = false) :
    (PrereqList.Satisfied x (.mk all whenTL prereqs) entity exclude buffer pfx).1 = true := by
  rw [PrereqList.Satisfied_of_gate x (.mk all whenTL prereqs) entity exclude buffer pfx
    ⟨hAny, hNoMatch⟩]

/-- C3, witness: an All list whose only child fails, behind a gate that asks for tech
level 5 on an entity of tech level 3. -/
theorem techLevel_gate_satisfied_witness :
    (⟨"at_least", 50000⟩ : Numeric).Compare ≠ sampleExternals.AnyNumber ∧
      sampleExternals.Matches "at_least" 50000
        (max (sampleExternals.ExtractTechLevel sampleEntity.Profile.TechLevel) 0) = false ∧
      (PrereqList.Satisfied sampleExternals
        (.mk true ⟨"at_least", 50000⟩ [.leaf (failingLeaf "\nneeds A")])
        sampleEntity none (some ⟨""⟩) "").1 = true :=
  ⟨by decide, by decide,
    techLevel_gate_satisfied sampleExternals true ⟨"at_least", 50000⟩
      [.leaf (failingLeaf "\nneeds A")] sampleEntity none (some ⟨""⟩) "" (by decide) (by decide)⟩

/-! ## What is written to the buffers -/

theorem writeString_empty (b : ByteBuffer) : b.WriteString "" = b := by
  cases b with
  | mk d => simp [ByteBuffer.WriteString]

theorem writeString_append (b : ByteBuffer) (s t : String) :
    (b.WriteString s).WriteString t = b.WriteString (s ++ t) := by
  simp [ByteBuffer.WriteString, String.append_assoc]

theorem dropped_append (s w : String) : String.mk ((s ++ w).data.drop s.data.length) = w := by
  cases w with
  | mk ws => simp

theorem concatTexts_nil : concatTexts [] = "" := rfl

theorem concatTexts_cons (t : String) (ts : List String) :
    concatTexts (t :: ts) = t ++ concatTexts ts := by
  apply String.ext
  simp [concatTexts]

theorem concatTexts_eq_empty (ts : List String) (h : ∀ t ∈ ts, t = "") :
    concatTexts ts = "" := by
  induction ts with
  | nil => rfl
  | cons t ts ih =>
    rw [concatTexts_cons, h t (List.mem_cons_self _ _),
      ih (fun u hu => h u (List.mem_cons_of_mem _ hu))]
    rfl

theorem PrereqList.Satisfied_unfold (x : Externals) (p : PrereqList) (entity : Entity)
    (exclude : Exclude) (buffer : Option ByteBuffer) (pfx : String)
    (h : ¬ gateShortCircuits x p entity) :
    PrereqList.Satisfied x p entity exclude buffer pfx =
      match buffer,
        (match (PrereqList.children x p.Prereqs entity exclude pfx 0 (localBuffer buffer)).2 with
        | some l =>
          if l.Len ≠ 0 then
            some ((ByteBuffer.mk "").WriteString (strings_ReplaceAll l.String "\n" "\n\u00a0\u00a0"))
          else some l
        | none => none) with
      | some b, some l =>
        if !(PrereqList.Satisfied x p entity exclude buffer pfx).1 then
          ((PrereqList.Satisfied x p entity exclude buffer pfx).1,
            some (((b.WriteString pfx).WriteString (header p.All)).WriteString l.String))
        else ((PrereqList.Satisfied x p entity exclude buffer pfx).1, some b)
      | _, _ => ((PrereqList.Satisfied x p entity exclude buffer pfx).1, buffer) := by
  rw [PrereqList.Satisfied_verdict x p entity exclude buffer pfx h]
  cases p with
  | mk all whenTL prereqs =>
    unfold gateShortCircuits at h
    simp only [PrereqList.WhenTL] at h
    unfold PrereqList.Satisfied
    simp only [techLevel_clamp, PrereqList.Prereqs, PrereqList.All]
    rw [if_neg h]
    simp only [localBuffer_eq, PrereqList.children_count, Nat.zero_add, header, i18n_Text]

/-- A list only appends to the caller's buffer. -/
theorem PrereqList.Satisfied_appends (x : Externals) (p : PrereqList) (entity : Entity)
    (exclude : Exclude) (b : ByteBuffer) (pfx : String) :
    ∃ w, (PrereqList.Satisfied x p entity exclude (some b) pfx).2 = some (b.WriteString w) := by
  by_cases h : gateShortCircuits x p entity
  · rw [PrereqList.Satisfied_of_gate x p entity exclude (some b) pfx h]
    exact ⟨"", by rw [writeString_empty]⟩
  · rw [PrereqList.Satisfied_unfold x p entity exclude (some b) pfx h]
    split
    · rename_i b1 l hb hl
      cases hb
      split
      · exact ⟨_, by rw [writeString_append, writeString_append]⟩
      · exact ⟨"", by rw [writeString_empty]⟩
    · exact ⟨"", by rw [writeString_empty]⟩

/-- With a nil buffer a list returns a nil buffer. -/
theorem PrereqList.Satisfied_nil (x : Externals) (p : PrereqList) (entity : Entity)
    (exclude : Exclude) (pfx : String) :
    (PrereqList.Satisfied x p entity exclude none pfx).2 = none := by
  by_cases h : gateShortCircuits x p entity
  · rw [PrereqList.Satisfied_of_gate x p entity exclude none pfx h]
  · rw [PrereqList.Satisfied_unfold x p entity exclude none pfx h]

theorem Prereq.Satisfied_keeps_nil (x : Externals) (one : Prereq) (entity : Entity)
    (exclude : Exclude) (pfx : String) :
    (Prereq.Satisfied x one entity exclude none pfx).2 = none := by
  cases one with
  | leaf l => simp [Prereq.Satisfied]
  | list p =>
    rw [Prereq.Satisfied]
    exact PrereqList.Satisfied_nil x p entity exclude pfx

/-- A prerequisite leaves in the buffer what was there, followed by what it wrote. -/
theorem Prereq.Satisfied_wrote (x : Externals) (one : Prereq) (entity : Entity)
    (exclude : Exclude) (loc : ByteBuffer) (pfx : String) :
    (Prereq.Satisfied x one entity exclude (some loc) pfx).2 =
      some (loc.WriteString (Prereq.wrote x one entity exclude loc pfx)) := by
  have key : ∃ w, (Prereq.Satisfied x one entity exclude (some loc) pfx).2 =
      some (loc.WriteString w) := by
    cases one with
    | leaf l => exact ⟨(l.Satisfied entity exclude (some loc) pfx).2, by simp [Prereq.Satisfied]⟩
    | list p =>
      rw [Prereq.Satisfied]
      exact PrereqList.Satisfied_appends x p entity exclude loc pfx
  obtain ⟨w, hw⟩ := key
  unfold Prereq.wrote
  rw [hw]
  simp only [ByteBuffer.WriteString, dropped_append]

theorem PrereqList.children_nil (x : Externals) (ps : List Prereq) (entity : Entity)
    (exclude : Exclude) (pfx : String) (count : Nat) :
    (PrereqList.children x ps entity exclude pfx count none).2 = none := by
  induction ps generalizing count with
  | nil => rfl
  | cons one rest ih =>
    simp only [PrereqList.children]
    rw [Prereq.Satisfied_keeps_nil]
    exact ih _

/-- After the loop the local buffer holds what it held before, followed by what each
child wrote, in child order. -/
theorem PrereqList.children_texts (x : Externals) (ps : List Prereq) (entity : Entity)
    (exclude : Exclude) (pfx : String) (count : Nat) (loc : ByteBuffer) :
    (PrereqList.children x ps entity exclude pfx count (some loc)).2 =
      some (loc.WriteString (concatTexts (childTexts x ps entity exclude loc pfx))) := by
  induction ps generalizing count loc with
  | nil =>
    simp only [PrereqList.children, childTexts, concatTexts_nil, writeString_empty]
  | cons one rest ih =>
    simp only [PrereqList.children, childTexts]
    rw [Prereq.Satisfied_wrote, ih, writeString_append, concatTexts_cons]

theorem reindented_local (l : ByteBuffer) :
    (if l.Len ≠ 0 then
        some ((ByteBuffer.mk "").WriteString (strings_ReplaceAll l.String "\n" "\n\u00a0\u00a0"))
      else some l) = some ⟨strings_ReplaceAll l.data "\n" "\n\u00a0\u00a0"⟩ := by
  by_cases h : l.Len ≠ 0
  · rw [if_pos h]
    simp [ByteBuffer.WriteString, ByteBuffer.String]
  · rw [if_neg h]
    have h0 : l.data = "" := (utf8ByteSize_eq_zero_iff l.data).mp (not_not.mp h)
    cases l with
    | mk d =>
      simp only at h0
      subst h0
      rfl

/-- The result of an ungated list on a non-nil buffer: the verdict, and the buffer,
untouched when satisfied, otherwise extended by the prefix, the header and the
re-indented content of the local buffer. -/
theorem PrereqList.Satisfied_some (x : Externals) (p : PrereqList) (entity : Entity)
    (exclude : Exclude) (b : ByteBuffer) (pfx : String)
    (h : ¬ gateShortCircuits x p entity) :
    PrereqList.Satisfied x p entity exclude (some b) pfx =
      ((PrereqList.Satisfied x p entity exclude (some b) pfx).1,
        if (PrereqList.Satisfied x p entity exclude (some b) pfx).1 = true then some b
        else some ⟨b.data ++ pfx ++ header p.All ++
          strings_ReplaceAll (concatTexts (childTexts x p.Prereqs entity exclude ⟨""⟩ pfx))
            "\n" "\n\u00a0\u00a0"⟩) := by
  conv => lhs; rw [PrereqList.Satisfied_unfold x p entity exclude (some b) pfx h]
  have hl : localBuffer (some b) = some ⟨""⟩ := rfl
  rw [hl, PrereqList.children_texts]
  dsimp only
  rw [reindented_local]
  cases (PrereqList.Satisfied x p entity exclude (some b) pfx).1
  · simp [ByteBuffer.WriteString, ByteBuffer.String]
  · simp

theorem not_gate_of_unsatisfied (x : Externals) (p : PrereqList) (entity : Entity)
    (exclude : Exclude) (buffer : Option ByteBuffer) (pfx : String)
    (hUnsat : (PrereqList.Satisfied x p entity exclude buffer pfx).1 = false) :
    ¬ gateShortCircuits x p entity := by
  intro h
  rw [PrereqList.Satisfied_of_gate x p entity exclude buffer pfx h] at hUnsat
  cases hUnsat

theorem localText_eq (x : Externals) (p : PrereqList) (entity : Entity) (exclude : Exclude)
    (pfx : String) :
    localText x p entity exclude pfx =
      concatTexts (childTexts x p.Prereqs entity exclude ⟨""⟩ pfx) := by
  unfold localText
  rw [PrereqList.children_texts]
  simp [ByteBuffer.WriteString]

theorem unsatisfied_buffer (x : Externals) (p : PrereqList) (entity : Entity)
    (exclude : Exclude) (b : ByteBuffer) (pfx : String)
    (hUnsat : (PrereqList.Satisfied x p entity exclude (some b) pfx).1 = false) :
    (PrereqList.Satisfied x p entity exclude (some b) pfx).2 =
      some ⟨b.data ++ pfx ++ header p.All ++
        strings_ReplaceAll (concatTexts (childTexts x p.Prereqs entity exclude ⟨""⟩ pfx))
          "\n" "\n\u00a0\u00a0"⟩ := by
  have hGate := not_gate_of_unsatisfied x p entity exclude (some b) pfx hUnsat
  rw [PrereqList.Satisfied_some x p entity exclude b pfx hGate, hUnsat]
  simp

/-! ## The explanation -/

/-- C4, as the code has it: when a list is not satisfied, a buffer is supplied and no
child produced explanation text, the prefix and the header are still appended to the
caller's buffer, with nothing beneath the header. -/
theorem header_without_child_text (x : Externals) (p : PrereqList) (entity : Entity)
    (exclude : Exclude) (b : ByteBuffer) (pfx : String)
    (hUnsat : (PrereqList.Satisfied x p entity exclude (some b) pfx).1 = false)
    (hNoText : ∀ t ∈ childTexts x p.Prereqs entity exclude ⟨""⟩ pfx, t = "") :
    (PrereqList.Satisfied x p entity exclude (some b) pfx).2 =
      some ⟨b.data ++ pfx ++ header p.All⟩ := by
  rw [unsatisfied_buffer x p entity exclude b pfx hUnsat, concatTexts_eq_empty _ hNoText]
  have h0 : strings_ReplaceAll "" "\n" "\n\u00a0\u00a0" = "" := rfl
  rw [h0, String.append_empty]

/-- C4, witness: the All list whose only child fails silently. -/
theorem header_without_child_text_witness :
    (PrereqList.Satisfied sampleExternals silentAll sampleEntity none (some ⟨"old"⟩) "> ").1
        = false ∧
      (∀ t ∈ childTexts sampleExternals silentAll.Prereqs sampleEntity none ⟨""⟩ "> ", t = "") ∧
      (PrereqList.Satisfied sampleExternals silentAll sampleEntity none (some ⟨"old"⟩) "> ").2 =
        some ⟨"old" ++ "> " ++ header silentAll.All⟩ :=
  ⟨by decide, by decide,
    header_without_child_text sampleExternals silentAll sampleEntity none ⟨"old"⟩ "> "
      (by decide) (by decide)⟩

/-- C4, counterexample: the All list whose only child fails silently is not satisfied,
no child produced text, and the caller's buffer, which held `old`, is changed: it now
ends with the prefix and the header. -/
theorem empty_header_counterexample :
    (PrereqList.Satisfied sampleExternals silentAll sampleEntity none (some ⟨"old"⟩) "> ").1
        = false ∧
      (∀ t ∈ childTexts sampleExternals silentAll.Prereqs sampleEntity none ⟨""⟩ "> ", t = "") ∧
      (PrereqList.Satisfied sampleExternals silentAll sampleEntity none (some ⟨"old"⟩) "> ").2 =
        some ⟨"old> Requires all of:"⟩ ∧
      (PrereqList.Satisfied sampleExternals silentAll sampleEntity none (some ⟨"old"⟩) "> ").2 ≠
        some ⟨"old"⟩ := by
  decide

/-- C5: when a list is satisfied, by its combinator or by the tech-level gate, the
caller's buffer after the call is the buffer before the call, whatever the children
wrote to the local buffer; and with a nil buffer the list returns a nil buffer and
every child is handed a nil buffer and leaves it nil. -/
theorem satisfied_keeps_buffer (x : Externals) (p : PrereqList) (entity : Entity)
    (exclude : Exclude) (buffer : Option ByteBuffer) (pfx : String) :
    ((PrereqList.Satisfied x p entity exclude buffer pfx).1 = true →
        (PrereqList.Satisfied x p entity exclude buffer pfx).2 = buffer) ∧
      (PrereqList.Satisfied x p entity exclude none pfx).2 = none ∧
      (∀ one count, (Prereq.Satisfied x one entity exclude none pfx).2 = none ∧
        (PrereqList.children x p.Prereqs entity exclude pfx count none).2 = none) := by
  refine ⟨?_, PrereqList.Satisfied_nil x p entity exclude pfx, fun one count =>
    ⟨Prereq.Satisfied_keeps_nil x one entity exclude pfx,
      PrereqList.children_nil x p.Prereqs entity exclude pfx count⟩⟩
  intro hSat
  cases buffer with
  | none => exact PrereqList.Satisfied_nil x p entity exclude pfx
  | some b =>
    by_cases h : gateShortCircuits x p entity
    · rw [PrereqList.Satisfied_of_gate x p entity exclude (some b) pfx h]
    · rw [PrereqList.Satisfied_some x p entity exclude b pfx h, hSat]
      simp

/-- C5, witness: the AtLeastOne list of a failing leaf, which writes its explanation
to the local buffer, and a passing leaf is satisfied and leaves the buffer as it was. -/
theorem satisfied_keeps_buffer_witness :
    (PrereqList.Satisfied sampleExternals mixedAtLeastOne sampleEntity none
        (some ⟨"old"⟩) "> ").1 = true ∧
      childTexts sampleExternals mixedAtLeastOne.Prereqs sampleEntity none ⟨""⟩ "> " =
        ["\nneeds A", ""] ∧
      (PrereqList.Satisfied sampleExternals mixedAtLeastOne sampleEntity none
        (some ⟨"old"⟩) "> ").2 = some ⟨"old"⟩ :=
  ⟨by decide, by decide,
    (satisfied_keeps_buffer sampleExternals mixedAtLeastOne sampleEntity none
      (some ⟨"old"⟩) "> ").1 (by decide)⟩

/-- C6: when a list is not satisfied and a buffer is supplied, the buffer after the
call is its previous content followed by exactly the caller's prefix, the header
(`Requires all of:` when All is true, `Requires at least one of:` otherwise) and the
re-indented content of the local buffer the children wrote to. In scenario C, the All
list of a failing leaf that explains itself with `textA` and a passing leaf that writes
nothing, the list is not satisfied and the buffer receives the prefix, the header
`Requires all of:` and the re-indented `textA` only. -/
theorem explanation_composition (x : Externals) (p : PrereqList) (entity : Entity)
    (exclude : Exclude) (b : ByteBuffer) (pfx : String) (textA : String) (q : FxpInt)
    (hUnsat : (PrereqList.Satisfied x p entity exclude (some b) pfx).1 = false) :
    (PrereqList.Satisfied x p entity exclude (some b) pfx).2 =
        some ⟨b.data ++ pfx ++
          (if p.All = true then "Requires all of:" else "Requires at least one of:") ++
          strings_ReplaceAll (localText x p entity exclude pfx) "\n" "\n\u00a0\u00a0"⟩ ∧
      PrereqList.Satisfied x
          (.mk true ⟨x.AnyNumber, q⟩ [.leaf (failingLeaf textA), .leaf passingLeaf])
          entity exclude (some b) pfx =
        (false, some ⟨b.data ++ pfx ++ "Requires all of:" ++
          strings_ReplaceAll textA "\n" "\n\u00a0\u00a0"⟩) := by
  constructor
  · rw [unsatisfied_buffer x p entity exclude b pfx hUnsat, localText_eq]
    cases p.All <;> rfl
  · have hGate : ¬ gateShortCircuits x
        (.mk true ⟨x.AnyNumber, q⟩ [.leaf (failingLeaf textA), .leaf passingLeaf]) entity :=
      fun h => h.1 rfl
    have hv : (PrereqList.Satisfied x
        (.mk true ⟨x.AnyNumber, q⟩ [.leaf (failingLeaf textA), .leaf passingLeaf])
        entity exclude (some b) pfx).1 = false := by
      rw [PrereqList.Satisfied_verdict _ _ _ _ _ _ hGate]
      simp [childVerdicts, Prereq.Satisfied, failingLeaf, passingLeaf, PrereqList.Prereqs,
        PrereqList.All]
    have ht : concatTexts (childTexts x
        (PrereqList.mk true ⟨x.AnyNumber, q⟩
          [.leaf (failingLeaf textA), .leaf passingLeaf]).Prereqs
        entity exclude ⟨""⟩ pfx) = textA := by
      simp only [PrereqList.Prereqs, childTexts, concatTexts_cons, concatTexts_nil,
        Prereq.wrote, Prereq.Satisfied, failingLeaf, passingLeaf, ByteBuffer.WriteString,
        dropped_append]
      simp
    rw [Prod.ext_iff]
    refine ⟨hv, ?_⟩
    rw [unsatisfied_buffer x _ entity exclude b pfx hv, ht]
    rfl

/-- C6, witness: scenario C with the explanation `needs A` on a line of its own, a
buffer that holds `old` and the prefix `> `. -/
theorem explanation_composition_witness :
    (PrereqList.Satisfied sampleExternals mixedAll sampleEntity none (some ⟨"old"⟩) "> ").1
        = false ∧
      localText sampleExternals mixedAll sampleEntity none "> " ≠ "" ∧
      (PrereqList.Satisfied sampleExternals mixedAll sampleEntity none (some ⟨"old"⟩) "> ").2 =
        some ⟨"old> Requires all of:\n\u00a0\u00a0needs A"⟩ :=
  ⟨by decide, by decide,
    ((explanation_composition sampleExternals mixedAll sampleEntity none ⟨"old"⟩ "> "
      "\nneeds A" 0 (by decide)).1).trans (by decide)⟩

/-- C7: the text placed beneath the header of an unsatisfied list is the concatenation,
in child order, of what each child wrote, re-indented: every newline is replaced by a
newline followed by two non-breaking spaces and every other character is kept. The
local buffer holds that concatenation, and strings.ReplaceAll with the arguments of the
code is that re-indentation. -/
theorem reindentation (x : Externals) (p : PrereqList) (entity : Entity)
    (exclude : Exclude) (b : ByteBuffer) (pfx : String)
    (hUnsat : (PrereqList.Satisfied x p entity exclude (some b) pfx).1 = false) :
    (PrereqList.Satisfied x p entity exclude (some b) pfx).2 =
        some ⟨b.data ++ pfx ++ header p.All ++
          reindent (concatTexts (childTexts x p.Prereqs entity exclude ⟨""⟩ pfx))⟩ ∧
      localText x p entity exclude pfx =
        concatTexts (childTexts x p.Prereqs entity exclude ⟨""⟩ pfx) ∧
      (∀ s : String, strings_ReplaceAll s "\n" "\n\u00a0\u00a0" = reindent s) := by
  refine ⟨?_, localText_eq x p entity exclude pfx, strings_ReplaceAll_newline⟩
  rw [unsatisfied_buffer x p entity exclude b pfx hUnsat, strings_ReplaceAll_newline]

/-- C7, witness: an All list of two failing leaves whose explanations span two lines
each. -/
theorem reindentation_witness :
    (PrereqList.Satisfied sampleExternals twoLineAll sampleEntity none (some ⟨""⟩) "").1
        = false ∧
      childTexts sampleExternals twoLineAll.Prereqs sampleEntity none ⟨""⟩ "" =
        ["\nA1\nA2", "\nB1\nB2"] ∧
      (PrereqList.Satisfied sampleExternals twoLineAll sampleEntity none (some ⟨""⟩) "").2 =
        some ⟨"Requires all of:\n\u00a0\u00a0A1\n\u00a0\u00a0A2\n\u00a0\u00a0B1\n\u00a0\u00a0B2"⟩ :=
  ⟨by decide, by decide,
    ((reindentation sampleExternals twoLineAll sampleEntity none ⟨""⟩ ""
      (by decide)).1).trans (by decide)⟩

/-! ## Attribute sets -/

theorem lookup_eq_none_of_not_key (set : List (String × Attribute)) (attrID : String)
    (h : attrID ∉ set.map Prod.fst) : set.lookup attrID = none := by
  induction set with
  | nil => rfl
  | cons kv rest ih =>
    obtain ⟨k, v⟩ := kv
    simp only [List.map_cons, List.mem_cons, not_or] at h
    have hk : (attrID == k) = false := by simpa using h.1
    rw [List.lookup_cons, hk]
    exact ih h.2

/-- C8: for an ID that is neither a key of the set nor read as a number by
fxp.FromString, Current and Maximum both return fxp.Min (a value, not an error). -/
theorem unresolved_id_yields_min (x : Externals) (a : Attributes) (attrID : String)
    (hKey : attrID ∉ a.Set.map Prod.fst) (hNum : x.FromString attrID = none) :
    a.Current x attrID = fxp_Min ∧ a.Maximum x attrID = fxp_Min := by
  have hl := lookup_eq_none_of_not_key a.Set attrID hKey
  simp [Attributes.Current, Attributes.Maximum, hl, hNum]

/-- C8, witness: scenario D, the ID `xyz_unknown`. -/
theorem unresolved_id_yields_min_witness :
    "xyz_unknown" ∉ sampleAttributes.Set.map Prod.fst ∧
      sampleExternals.FromString "xyz_unknown" = none ∧
      sampleAttributes.Current sampleExternals "xyz_unknown" = fxp_Min ∧
      sampleAttributes.Maximum sampleExternals "xyz_unknown" = fxp_Min :=
  ⟨by decide, by decide,
    unresolved_id_yields_min sampleExternals sampleAttributes "xyz_unknown"
      (by decide) (by decide)⟩

/-- C9: when the ID is a key of the set, Current and Maximum are the Current and the
Maximum of the instance stored under it, whatever fxp.FromString makes of the ID;
when it is not a key and fxp.FromString reads it as the value v, both return v. -/
theorem literal_fallback (x : Externals) (a : Attributes) (attrID : String) :
    (∀ attr, a.Set.lookup attrID = some attr →
        a.Current x attrID = x.Current attr ∧ a.Maximum x attrID = x.Maximum attr) ∧
      (attrID ∉ a.Set.map Prod.fst → ∀ v, x.FromString attrID = some v →
        a.Current x attrID = v ∧ a.Maximum x attrID = v) := by
  constructor
  · intro attr h
    simp [Attributes.Current, Attributes.Maximum, h]
  · intro hKey v hv
    have hl := lookup_eq_none_of_not_key a.Set attrID hKey
    simp [Attributes.Current, Attributes.Maximum, hl, hv]

/-- C9, witness: the key `12`, which also reads as a number, resolves through its
instance; the ID `15`, which is not a key, resolves to the number 15. -/
theorem literal_fallback_witness :
    (sampleAttributes.Set.lookup "12" = some ⟨"12", 20000, 10000, 1, none⟩ ∧
        sampleExternals.FromString "12" = some 120000 ∧
        sampleAttributes.Current sampleExternals "12" = 110000 ∧
        sampleAttributes.Maximum sampleExternals "12" = 120000) ∧
      ("15" ∉ sampleAttributes.Set.map Prod.fst ∧
        sampleExternals.FromString "15" = some 150000 ∧
        sampleAttributes.Current sampleExternals "15" = 150000 ∧
        sampleAttributes.Maximum sampleExternals "15" = 150000) :=
  ⟨⟨by decide, by decide,
      (literal_fallback sampleExternals sampleAttributes "12").1 ⟨"12", 20000, 10000, 1, none⟩
        (by decide)⟩,
    ⟨by decide, by decide,
      (literal_fallback sampleExternals sampleAttributes "15").2 (by decide) 150000
        (by decide)⟩⟩

theorem collected_values (set : List (String × Attribute)) (acc : List Attribute) :
    set.foldl (fun list kv => list ++ [kv.2]) acc = acc ++ set.map Prod.snd := by
  induction set generalizing acc with
  | nil => simp
  | cons kv rest ih => simp [ih]

theorem Attributes.List_eq (a : Attributes) :
    a.List = (a.Set.map Prod.snd).insertionSort
      (fun u v => decide (v.Order < u.Order) = false) := by
  simp [Attributes.List, sort_Slice, collected_values]

theorem orderTotal :
    IsTotal Attribute (fun u v => decide (v.Order < u.Order) = false) :=
  ⟨fun u v => by
    simp only [decide_eq_false_iff_not, not_lt]
    exact le_total u.Order v.Order⟩

theorem orderTrans :
    IsTrans Attribute (fun u v => decide (v.Order < u.Order) = false) :=
  ⟨fun u v w huv hvw => by
    simp only [decide_eq_false_iff_not, not_lt] at huv hvw ⊢
    exact le_trans huv hvw⟩

/-- Between attributes of distinct Order, being in order is antisymmetric. -/
theorem orderAntisymm :
    IsAntisymm Attribute (fun u v => u.Order ≤ v.Order ∧ u.Order ≠ v.Order) :=
  ⟨fun _ _ huv hvu => absurd (le_antisymm huv.1 hvu.1) huv.2⟩

theorem Attributes.List_sorted (a : Attributes) :
    a.List.Pairwise (fun u v => u.Order ≤ v.Order) := by
  rw [Attributes.List_eq]
  haveI := orderTotal
  haveI := orderTrans
  refine List.Pairwise.imp ?_ (List.sorted_insertionSort _ (a.Set.map Prod.snd))
  intro u v h
  simpa using h

theorem Attributes.List_perm (a : Attributes) : a.List.Perm (a.Set.map Prod.snd) := by
  rw [Attributes.List_eq]
  exact List.perm_insertionSort _ _

theorem sorted_perm_unique (l₁ l₂ vs : List Attribute)
    (hd : vs.Pairwise (fun u v => u.Order ≠ v.Order))
    (hp₁ : l₁.Perm vs) (hp₂ : l₂.Perm vs)
    (hs₁ : l₁.Pairwise (fun u v => u.Order ≤ v.Order))
    (hs₂ : l₂.Pairwise (fun u v => u.Order ≤ v.Order)) : l₁ = l₂ := by
  have hsymm : Symmetric (fun u v : Attribute => u.Order ≠ v.Order) :=
    fun _ _ h => fun h2 => h h2.symm
  have hd₁ := (hp₁.pairwise_iff (fun {_ _} h => hsymm h)).mpr hd
  have hd₂ := (hp₂.pairwise_iff (fun {_ _} h => hsymm h)).mpr hd
  haveI := orderAntisymm
  exact List.eq_of_perm_of_sorted (hp₁.trans hp₂.symm) (hs₁.and hd₁) (hs₂.and hd₂)

/-- C10: Attributes.List is a permutation of the values of the map (each Attribute of
the set once, as many elements as the set has entries) sorted in non-decreasing Order;
when the Orders are pairwise distinct it is the only such sequence, so it does not
depend on the iteration order of the map nor on how sort.Slice treats equal elements. -/
theorem list_stable_ordered_view (a : Attributes) :
    a.List.Perm (a.Set.map Prod.snd) ∧ a.List.length = a.Set.length ∧
      a.List.Pairwise (fun u v => u.Order ≤ v.Order) ∧
      ((a.Set.map Prod.snd).Pairwise (fun u v => u.Order ≠ v.Order) →
        (∀ l : List Attribute, l.Perm (a.Set.map Prod.snd) →
          l.Pairwise (fun u v => u.Order ≤ v.Order) → l = a.List) ∧
        (∀ b : Attributes, b.Set.Perm a.Set → b.List = a.List)) := by
  refine ⟨Attributes.List_perm a, ?_, Attributes.List_sorted a, fun hd => ⟨?_, ?_⟩⟩
  · simpa using (Attributes.List_perm a).length_eq
  · intro l hp hs
    exact sorted_perm_unique l a.List _ hd hp (Attributes.List_perm a) hs
      (Attributes.List_sorted a)
  · intro b hb
    exact sorted_perm_unique b.List a.List _ hd
      ((Attributes.List_perm b).trans (hb.map Prod.snd)) (Attributes.List_perm a)
      (Attributes.List_sorted b) (Attributes.List_sorted a)

/-- C10, witness: the sample set lists its attributes by Order, and so does the same
map iterated in the opposite order. -/
theorem list_stable_ordered_view_witness :
    sampleAttributes.List =
        [⟨"st", 10000, 0, 0, none⟩, ⟨"12", 20000, 10000, 1, none⟩, ⟨"iq", 0, 0, 2, none⟩] ∧
      (sampleAttributes.Set.map Prod.snd).Pairwise (fun u v => u.Order ≠ v.Order) ∧
      (Attributes.mk sampleAttributes.Set.reverse).List = sampleAttributes.List :=
  ⟨by decide, by decide,
    ((list_stable_ordered_view sampleAttributes).2.2.2 (by decide)).2
      (Attributes.mk sampleAttributes.Set.reverse) (List.reverse_perm _)⟩

/-! ## General settings -/

theorem resetIfOutOfRange_eq (value min max dflt : Int) :
    fxp_ResetIfOutOfRange value min max dflt =
      if min ≤ value ∧ value ≤ max then value else dflt := by
  unfold fxp_ResetIfOutOfRange
  by_cases h : min ≤ value ∧ value ≤ max
  · rw [if_pos h, if_neg]
    rintro (h1 | h2)
    · exact absurd h.1 (not_le.mpr h1)
    · exact absurd h.2 (not_le.mpr h2)
  · rw [if_neg h, if_pos]
    rcases lt_or_le value min with h1 | h1
    · exact Or.inl h1
    · rcases lt_or_le max value with h2 | h2
      · exact Or.inr h2
      · exact absurd ⟨h1, h2⟩ h

theorem resetIfOutOfRangeInt_eq (value min max dflt : Int) :
    fxp_ResetIfOutOfRangeInt value min max dflt =
      if min ≤ value ∧ value ≤ max then value else dflt :=
  resetIfOutOfRange_eq value min max dflt

theorem reset_in_range (value min max dflt : Int) (hd : min ≤ dflt ∧ dflt ≤ max) :
    min ≤ fxp_ResetIfOutOfRange value min max dflt ∧
      fxp_ResetIfOutOfRange value min max dflt ≤ max := by
  rw [resetIfOutOfRange_eq]
  split
  · assumption
  · exact hd

/-- C20: after EnsureValidity, InitialPoints is in [0, 9999999], TooltipDelay in
[0, 30], TooltipDismissal in [1, 3600] (as fixed-point values), ImageResolution in
[50, 400] and both initial UI scales in [50, 400]; each of these fields keeps its value
when that value was inside its range and is its default otherwise, the defaults being
150, 0.75, 60, 200, 100 and 133; the other fields are unchanged. -/
theorem ensureValidity_sanitizes (s : General) :
    ((fxp_From 0 ≤ s.EnsureValidity.InitialPoints ∧
        s.EnsureValidity.InitialPoints ≤ fxp_From 9999999) ∧
      (fxp_From 0 ≤ s.EnsureValidity.TooltipDelay ∧
        s.EnsureValidity.TooltipDelay ≤ fxp_From 30) ∧
      (fxp_From 1 ≤ s.EnsureValidity.TooltipDismissal ∧
        s.EnsureValidity.TooltipDismissal ≤ fxp_From 3600) ∧
      (50 ≤ s.EnsureValidity.ImageResolution ∧ s.EnsureValidity.ImageResolution ≤ 400) ∧
      (50 ≤ s.EnsureValidity.InitialListUIScale ∧
        s.EnsureValidity.InitialListUIScale ≤ 400) ∧
      (50 ≤ s.EnsureValidity.InitialSheetUIScale ∧
        s.EnsureValidity.InitialSheetUIScale ≤ 400)) ∧
    (s.EnsureValidity.InitialPoints =
        (if fxp_From 0 ≤ s.InitialPoints ∧ s.InitialPoints ≤ fxp_From 9999999
          then s.InitialPoints else fxp_From 150) ∧
      s.EnsureValidity.TooltipDelay =
        (if fxp_From 0 ≤ s.TooltipDelay ∧ s.TooltipDelay ≤ fxp_From 30
          then s.TooltipDelay else fxp_From 75 / 100) ∧
      s.EnsureValidity.TooltipDismissal =
        (if fxp_From 1 ≤ s.TooltipDismissal ∧ s.TooltipDismissal ≤ fxp_From 3600
          then s.TooltipDismissal else fxp_From 60) ∧
      s.EnsureValidity.ImageResolution =
        (if 50 ≤ s.ImageResolution ∧ s.ImageResolution ≤ 400
          then s.ImageResolution else 200) ∧
      s.EnsureValidity.InitialListUIScale =
        (if 50 ≤ s.InitialListUIScale ∧ s.InitialListUIScale ≤ 400
          then s.InitialListUIScale else 100) ∧
      s.EnsureValidity.InitialSheetUIScale =
        (if 50 ≤ s.InitialSheetUIScale ∧ s.InitialSheetUIScale ≤ 400
          then s.InitialSheetUIScale else 133)) ∧
    (s.EnsureValidity.DefaultPlayerName = s.DefaultPlayerName ∧
      s.EnsureValidity.DefaultTechLevel = s.DefaultTechLevel ∧
      s.EnsureValidity.CalendarName = s.CalendarName ∧
      s.EnsureValidity.AutoFillProfile = s.AutoFillProfile ∧
      s.EnsureValidity.AutoAddNaturalAttacks = s.AutoAddNaturalAttacks ∧
      s.EnsureValidity.IncludeUnspentPointsInTotal = s.IncludeUnspentPointsInTotal) := by
  refine ⟨⟨?_, ?_, ?_, ?_, ?_, ?_⟩, ⟨?_, ?_, ?_, ?_, ?_, ?_⟩, ⟨rfl, rfl, rfl, rfl, rfl, rfl⟩⟩
  · exact reset_in_range _ _ _ _ (by decide)
  · exact reset_in_range _ _ _ _ (by decide)
  · exact reset_in_range _ _ _ _ (by decide)
  · exact reset_in_range _ _ _ _ (by decide)
  · exact reset_in_range _ _ _ _ (by decide)
  · exact reset_in_range _ _ _ _ (by decide)
  · exact resetIfOutOfRange_eq _ _ _ _
  · exact resetIfOutOfRange_eq _ _ _ _
  · exact resetIfOutOfRange_eq _ _ _ _
  · exact resetIfOutOfRange_eq _ _ _ _
  · exact resetIfOutOfRange_eq _ _ _ _
  · exact resetIfOutOfRange_eq _ _ _ _

/-! ## Cloning prerequisite lists -/

theorem cloneChildren_length (lc : LeafClone) (ps : List PrereqNode)
    (parent : Option ListAddr) (next : ListAddr) :
    (PrereqListNode.cloneChildren lc ps parent next).1.length = ps.length := by
  induction ps generalizing next with
  | nil => rfl
  | cons one rest ih => simp [PrereqListNode.cloneChildren, ih]

theorem cloneAsPrereqList_fields (lc : LeafClone) (q : PrereqListNode)
    (parent : Option ListAddr) (next : ListAddr) :
    (q.CloneAsPrereqList lc parent next).1.addr = next ∧
      (q.CloneAsPrereqList lc parent next).1.Parent = parent ∧
      (q.CloneAsPrereqList lc parent next).1.Type_ = q.Type_ ∧
      (q.CloneAsPrereqList lc parent next).1.All = q.All ∧
      (q.CloneAsPrereqList lc parent next).1.WhenTL = q.WhenTL ∧
      (q.CloneAsPrereqList lc parent next).1.Prereqs.length = q.Prereqs.length := by
  cases q with
  | mk addr par ty all whenTL prereqs =>
    simp [PrereqListNode.CloneAsPrereqList, PrereqListNode.addr, PrereqListNode.Parent,
      PrereqListNode.Type_, PrereqListNode.All, PrereqListNode.WhenTL,
      PrereqListNode.Prereqs, cloneChildren_length]

theorem shouldOmit_iff (q : PrereqListNode) :
    PrereqListNode.ShouldOmit (some q) = true ↔ q.Prereqs = [] := by
  simp [PrereqListNode.ShouldOmit]

theorem cloneResolvingEmpty_some (lc : LeafClone) (q : PrereqListNode)
    (isContainer pruneIfEmpty : Bool) (next : ListAddr) :
    PrereqListNode.CloneResolvingEmpty lc (some q) isContainer pruneIfEmpty next =
      if pruneIfEmpty = true ∧ PrereqListNode.ShouldOmit (some q) = true then (none, next)
      else (some (q.CloneAsPrereqList lc none next).1, (q.CloneAsPrereqList lc none next).2) := by
  unfold PrereqListNode.CloneResolvingEmpty
  simp only [Bool.and_eq_true]

/-- C18, as the code has it: for a non-nil list with no children, CloneResolvingEmpty
returns nil when pruneIfEmpty is true and a non-nil list with no children when
pruneIfEmpty is false, in both cases whatever isContainer is. -/
theorem empty_list_pruning (lc : LeafClone) (q : PrereqListNode) (isContainer : Bool)
    (next : ListAddr) (hEmpty : q.Prereqs = []) :
    (PrereqListNode.CloneResolvingEmpty lc (some q) isContainer true next).1 = none ∧
      ∃ c, (PrereqListNode.CloneResolvingEmpty lc (some q) isContainer false next).1 = some c ∧
        c.Prereqs = [] := by
  rw [cloneResolvingEmpty_some, cloneResolvingEmpty_some,
    if_pos ⟨rfl, (shouldOmit_iff q).mpr hEmpty⟩, if_neg (by simp)]
  refine ⟨rfl, _, rfl, ?_⟩
  have hl := (cloneAsPrereqList_fields lc q none next).2.2.2.2.2
  rw [hEmpty] at hl
  exact List.length_eq_zero.mp hl

/-- C18, witness: the empty list at address 7, owned by a container. -/
theorem empty_list_pruning_witness :
    emptyNode.Prereqs = [] ∧
      (PrereqListNode.CloneResolvingEmpty copyLeaf (some emptyNode) true true 8).1 = none ∧
      ∃ c, (PrereqListNode.CloneResolvingEmpty copyLeaf (some emptyNode) true false 8).1 =
          some c ∧ c.Prereqs = [] :=
  ⟨rfl, empty_list_pruning copyLeaf emptyNode true 8 rfl⟩

/-- C18, counterexample: the empty list of a container is not preserved when
pruneIfEmpty is true: CloneResolvingEmpty(true, true) returns nil. -/
theorem container_pruned_counterexample :
    emptyNode.Prereqs = [] ∧
      (PrereqListNode.CloneResolvingEmpty copyLeaf (some emptyNode) true true 8).1 = none :=
  ⟨rfl, rfl⟩

/-- C19: on a nil receiver CloneResolvingEmpty returns a new list (Type = List,
All = true, no children, no parent) when isContainer is false and nil when it is true;
on a non-nil receiver it returns nil exactly when pruneIfEmpty is true and ShouldOmit
is true, which is when the list has no children, and otherwise the result of
CloneAsPrereqList(nil): a struct with a nil Parent, the Type, All and WhenTL of the
receiver and as many children. -/
theorem cloneResolvingEmpty_documented (lc : LeafClone) (q : PrereqListNode)
    (isContainer pruneIfEmpty : Bool) (next : ListAddr) :
    ((PrereqListNode.CloneResolvingEmpty lc none false pruneIfEmpty next).1 =
        some (NewPrereqList next).1 ∧
      (NewPrereqList next).1.Type_ = prereq_List ∧ (NewPrereqList next).1.All = true ∧
      (NewPrereqList next).1.Prereqs = [] ∧ (NewPrereqList next).1.Parent = none) ∧
    (PrereqListNode.CloneResolvingEmpty lc none true pruneIfEmpty next).1 = none ∧
    ((PrereqListNode.CloneResolvingEmpty lc (some q) isContainer pruneIfEmpty next).1 = none ↔
      pruneIfEmpty = true ∧ PrereqListNode.ShouldOmit (some q) = true) ∧
    (PrereqListNode.ShouldOmit (some q) = true ↔ q.Prereqs = []) ∧
    (¬ (pruneIfEmpty = true ∧ PrereqListNode.ShouldOmit (some q) = true) →
      (PrereqListNode.CloneResolvingEmpty lc (some q) isContainer pruneIfEmpty next).1 =
          some (q.CloneAsPrereqList lc none next).1 ∧
        (q.CloneAsPrereqList lc none next).1.Parent = none ∧
        (q.CloneAsPrereqList lc none next).1.Type_ = q.Type_ ∧
        (q.CloneAsPrereqList lc none next).1.All = q.All ∧
        (q.CloneAsPrereqList lc none next).1.WhenTL = q.WhenTL ∧
        (q.CloneAsPrereqList lc none next).1.Prereqs.length = q.Prereqs.length) := by
  have hf := cloneAsPrereqList_fields lc q none next
  refine ⟨⟨rfl, rfl, rfl, rfl, rfl⟩, rfl, ?_, shouldOmit_iff q, ?_⟩
  · rw [cloneResolvingEmpty_some]
    by_cases h : pruneIfEmpty = true ∧ PrereqListNode.ShouldOmit (some q) = true
    · rw [if_pos h]
      exact ⟨fun _ => h, fun _ => rfl⟩
    · rw [if_neg h]
      exact ⟨fun hn => Option.noConfusion hn, fun hh => absurd hh h⟩
  · intro h
    rw [cloneResolvingEmpty_some, if_neg h]
    exact ⟨rfl, hf.2.1, hf.2.2.1, hf.2.2.2.1, hf.2.2.2.2.1, hf.2.2.2.2.2⟩

/-- C19, witness: the list at address 3, which has children, is cloned to address 8
with a nil parent although pruneIfEmpty is true. -/
theorem cloneResolvingEmpty_documented_witness :
    ¬ (true = true ∧ PrereqListNode.ShouldOmit (some nestedNode) = true) ∧
      (PrereqListNode.CloneResolvingEmpty copyLeaf (some nestedNode) false true 8).1 =
        some (nestedNode.CloneAsPrereqList copyLeaf none 8).1 ∧
      (nestedNode.CloneAsPrereqList copyLeaf none 8).1.Parent = none ∧
      (nestedNode.CloneAsPrereqList copyLeaf none 8).1.addr = 8 ∧
      (nestedNode.CloneAsPrereqList copyLeaf none 8).1.Prereqs.length = 2 :=
  ⟨by decide,
    ((cloneResolvingEmpty_documented copyLeaf nestedNode false true 8).2.2.2.2
      (by decide)).1,
    rfl, rfl, rfl⟩

/-! ## Maps as association lists -/

theorem mapAssign_of_not_key (m : List (String × Attribute)) (k : String) (v : Attribute)
    (h : k ∉ mapKeys m) : mapAssign m k v = m ++ [(k, v)] := by
  unfold mapKeys at h
  unfold mapAssign
  rw [if_neg h]

theorem mapKeys_assign_of_key (m : List (String × Attribute)) (k : String) (v : Attribute)
    (h : k ∈ mapKeys m) : mapKeys (mapAssign m k v) = mapKeys m := by
  unfold mapKeys at h
  unfold mapAssign
  rw [if_pos h]
  unfold mapKeys
  rw [List.map_map]
  apply List.map_congr_left
  intro kv _
  by_cases hk : kv.1 = k
  · simp [hk]
  · simp [hk]

theorem mapKeys_assign_of_not_key (m : List (String × Attribute)) (k : String)
    (v : Attribute) (h : k ∉ mapKeys m) : mapKeys (mapAssign m k v) = mapKeys m ++ [k] := by
  rw [mapAssign_of_not_key m k v h]
  simp [mapKeys]

theorem mem_mapKeys_assign (m : List (String × Attribute)) (k : String) (v : Attribute)
    (k' : String) : k' ∈ mapKeys (mapAssign m k v) ↔ k' ∈ mapKeys m ∨ k' = k := by
  by_cases h : k ∈ mapKeys m
  · rw [mapKeys_assign_of_key m k v h]
    constructor
    · exact Or.inl
    · rintro (h1 | h1)
      · exact h1
      · rw [h1]
        exact h
  · rw [mapKeys_assign_of_not_key m k v h]
    simp

theorem nodup_mapKeys_assign (m : List (String × Attribute)) (k : String) (v : Attribute)
    (hm : (mapKeys m).Nodup) : (mapKeys (mapAssign m k v)).Nodup := by
  by_cases h : k ∈ mapKeys m
  · rw [mapKeys_assign_of_key m k v h]
    exact hm
  · rw [mapKeys_assign_of_not_key m k v h]
    exact List.Nodup.append hm (List.nodup_singleton k) (by simpa using h)

/-- Assigning the pairs of a list, one after the other, to a map. -/
theorem mem_mapKeys_foldl {β : Type} (f : β → String × Attribute) (l : List β)
    (acc : List (String × Attribute)) (k : String) :
    k ∈ mapKeys (l.foldl (fun s b => mapAssign s (f b).1 (f b).2) acc) ↔
      k ∈ mapKeys acc ∨ k ∈ l.map (fun b => (f b).1) := by
  induction l generalizing acc with
  | nil => simp
  | cons b rest ih =>
    rw [List.foldl_cons, ih, mem_mapKeys_assign]
    simp only [List.map_cons, List.mem_cons]
    tauto

theorem nodup_mapKeys_foldl {β : Type} (f : β → String × Attribute) (l : List β)
    (acc : List (String × Attribute)) (h : (mapKeys acc).Nodup) :
    (mapKeys (l.foldl (fun s b => mapAssign s (f b).1 (f b).2) acc)).Nodup := by
  induction l generalizing acc with
  | nil => exact h
  | cons b rest ih =>
    rw [List.foldl_cons]
    exact ih _ (nodup_mapKeys_assign acc _ _ h)

theorem foldl_assign_fresh {β : Type} (f : β → String × Attribute) (l : List β)
    (acc : List (String × Attribute))
    (h : (mapKeys acc ++ l.map (fun b => (f b).1)).Nodup) :
    l.foldl (fun s b => mapAssign s (f b).1 (f b).2) acc = acc ++ l.map f := by
  induction l generalizing acc with
  | nil => simp
  | cons b rest ih =>
    have hb : (f b).1 ∉ mapKeys acc := by
      intro hmem
      have := List.disjoint_of_nodup_append h
      exact this hmem (by simp)
    rw [List.foldl_cons, mapAssign_of_not_key acc _ _ hb, ih]
    · simp
    · have e : mapKeys (acc ++ [((f b).1, (f b).2)]) ++ rest.map (fun b => (f b).1) =
          mapKeys acc ++ (b :: rest).map (fun b => (f b).1) := by
        simp [mapKeys]
      rw [e]
      exact h

theorem lookup_of_mem_of_nodup (m : List (String × Attribute)) (k : String) (v : Attribute)
    (hm : (mapKeys m).Nodup) (h : (k, v) ∈ m) : m.lookup k = some v := by
  induction m with
  | nil => cases h
  | cons kv rest ih =>
    obtain ⟨k0, v0⟩ := kv
    simp only [mapKeys, List.map_cons, List.nodup_cons] at hm
    rcases List.mem_cons.mp h with h1 | h1
    · cases h1
      simp [List.lookup_cons]
    · have hne : k ≠ k0 := by
        rintro rfl
        exact hm.1 (List.mem_map_of_mem Prod.fst h1)
      have hb : (k == k0) = false := by simpa using hne
      rw [List.lookup_cons, hb]
      exact ih hm.2 h1

theorem unmarshalLoop_eq_foldl (list : List Attribute) (i : Nat)
    (set : List (String × Attribute)) :
    unmarshalLoop list i set =
      (renumberFrom i list).foldl (fun s v => mapAssign s (v.ID, v).1 (v.ID, v).2) set := by
  induction list generalizing i set with
  | nil => rfl
  | cons one rest ih =>
    simp only [unmarshalLoop, renumberFrom, List.foldl_cons]
    exact ih _ _

theorem renumberFrom_ids (i : Nat) (list : List Attribute) :
    (renumberFrom i list).map Attribute.ID = list.map Attribute.ID := by
  induction list generalizing i with
  | nil => rfl
  | cons one rest ih => simp [renumberFrom, ih, Attribute.ID]

/-- C13, as the code has it: the keys of NewAttributes(entity) are exactly the
definition IDs of the entity's configuration, the keys of Clone are exactly the keys of
the receiver, and the keys of a set loaded by UnmarshalJSON are exactly the IDs of the
stored sequence; each key occurs once. -/
theorem key_space_after_operations (x : AttributeExternals) (entity : Entity)
    (a : Attributes) (data : String) (list : List Attribute)
    (hDecode : x.Unmarshal data = some list) :
    ((∀ k, k ∈ mapKeys (NewAttributes x entity).Set ↔
          k ∈ entity.SheetSettings.Attributes.Set.map Prod.fst) ∧
        (mapKeys (NewAttributes x entity).Set).Nodup) ∧
      ((∀ k, k ∈ mapKeys (a.Clone x entity).Set ↔ k ∈ mapKeys a.Set) ∧
        (mapKeys (a.Clone x entity).Set).Nodup) ∧
      ((∀ k, k ∈ mapKeys (a.UnmarshalJSON x data).1.Set ↔ k ∈ list.map Attribute.ID) ∧
        (mapKeys (a.UnmarshalJSON x data).1.Set).Nodup) := by
  refine ⟨⟨?_, ?_⟩, ⟨?_, ?_⟩, ⟨?_, ?_⟩⟩
  · intro k
    unfold NewAttributes
    rw [mem_mapKeys_foldl
      (fun kv : String × AttributeDef => (kv.1, x.NewAttribute entity kv.1 kv.2.Order))]
    simp [mapKeys]
  · exact nodup_mapKeys_foldl
      (fun kv : String × AttributeDef => (kv.1, x.NewAttribute entity kv.1 kv.2.Order))
      _ [] List.nodup_nil
  · intro k
    unfold Attributes.Clone
    rw [mem_mapKeys_foldl (fun kv : String × Attribute => (kv.1, x.Clone kv.2 entity))]
    simp [mapKeys]
  · exact nodup_mapKeys_foldl (fun kv : String × Attribute => (kv.1, x.Clone kv.2 entity))
      _ [] List.nodup_nil
  · intro k
    simp only [Attributes.UnmarshalJSON, hDecode]
    rw [unmarshalLoop_eq_foldl, mem_mapKeys_foldl (fun v : Attribute => (v.ID, v)),
      ← renumberFrom_ids 0 list]
    simp [mapKeys]
  · simp only [Attributes.UnmarshalJSON, hDecode]
    rw [unmarshalLoop_eq_foldl]
    exact nodup_mapKeys_foldl (fun v : Attribute => (v.ID, v)) _ [] List.nodup_nil

/-- C13, witness: the stored IDs `st,xx` give the keys `st` and `xx`. -/
theorem key_space_after_operations_witness :
    sampleAttributeExternals.Unmarshal "st,xx" =
        some [⟨"st", 0, 0, 99, none⟩, ⟨"xx", 0, 0, 99, none⟩] ∧
      mapKeys (NewAttributes sampleAttributeExternals sampleEntity).Set = ["st", "dx", "hp"] ∧
      (∀ k, k ∈ mapKeys (sampleAttributes.UnmarshalJSON sampleAttributeExternals "st,xx").1.Set ↔
        k ∈ [⟨"st", 0, 0, 99, none⟩, ⟨"xx", 0, 0, 99, none⟩].map Attribute.ID) :=
  ⟨by decide, by decide,
    (key_space_after_operations sampleAttributeExternals sampleEntity sampleAttributes "st,xx"
      [⟨"st", 0, 0, 99, none⟩, ⟨"xx", 0, 0, 99, none⟩] (by decide)).2.2.1⟩

/-- C13, counterexample: the configuration of the sample entity defines `st`, `dx` and
`hp`; after loading the stored IDs `st,xx` the set has the key `xx`, which has no
definition, and lacks the keys `dx` and `hp`, which have one. -/
theorem load_keeps_stored_keys_counterexample :
    sampleEntity.SheetSettings.Attributes.Set.map Prod.fst = ["st", "dx", "hp"] ∧
      mapKeys (sampleAttributes.UnmarshalJSON sampleAttributeExternals "st,xx").1.Set =
        ["st", "xx"] ∧
      "xx" ∈ mapKeys (sampleAttributes.UnmarshalJSON sampleAttributeExternals "st,xx").1.Set ∧
      "xx" ∉ sampleEntity.SheetSettings.Attributes.Set.map Prod.fst ∧
      "dx" ∈ sampleEntity.SheetSettings.Attributes.Set.map Prod.fst ∧
      "dx" ∉ mapKeys (sampleAttributes.UnmarshalJSON sampleAttributeExternals "st,xx").1.Set := by
  decide

/-- C14: when the keys of the configuration's definition map are distinct (it is a map)
and NewAttribute stores the order it is given, NewAttributes(entity) holds, for every
definition and under its ID, the attribute NewAttribute made for that ID and the
definition's Order, and nothing else; that attribute's Order is the definition's. -/
theorem newAttributes_builds (x : AttributeExternals) (entity : Entity)
    (hKeys : (entity.SheetSettings.Attributes.Set.map Prod.fst).Nodup)
    (hOrder : ∀ e attrID order, (x.NewAttribute e attrID order).Order = order) :
    (NewAttributes x entity).Set =
        entity.SheetSettings.Attributes.Set.map
          (fun kv => (kv.1, x.NewAttribute entity kv.1 kv.2.Order)) ∧
      mapKeys (NewAttributes x entity).Set = entity.SheetSettings.Attributes.Set.map Prod.fst ∧
      (NewAttributes x entity).Set.length = entity.SheetSettings.Attributes.Set.length ∧
      (∀ attrID d, (attrID, d) ∈ entity.SheetSettings.Attributes.Set →
        (NewAttributes x entity).Set.lookup attrID =
            some (x.NewAttribute entity attrID d.Order) ∧
          (x.NewAttribute entity attrID d.Order).Order = d.Order) := by
  have hset : (NewAttributes x entity).Set =
      entity.SheetSettings.Attributes.Set.map
        (fun kv => (kv.1, x.NewAttribute entity kv.1 kv.2.Order)) := by
    unfold NewAttributes
    simp only
    rw [foldl_assign_fresh
      (fun kv : String × AttributeDef => (kv.1, x.NewAttribute entity kv.1 kv.2.Order))]
    · simp
    · simpa [mapKeys] using hKeys
  have hk : mapKeys (NewAttributes x entity).Set =
      entity.SheetSettings.Attributes.Set.map Prod.fst := by
    rw [hset]
    simp [mapKeys, Function.comp_def]
  refine ⟨hset, hk, ?_, ?_⟩
  · rw [hset, List.length_map]
  · intro attrID d hd
    refine ⟨lookup_of_mem_of_nodup _ _ _ (by rw [hk]; exact hKeys) ?_, hOrder _ _ _⟩
    rw [hset]
    exact List.mem_map.mpr ⟨(attrID, d), hd, rfl⟩

/-- C14, witness: the set built for the sample entity, whose configuration defines
`st`, `dx` and `hp` with the Orders 0, 1 and 2. -/
theorem newAttributes_builds_witness :
    (sampleEntity.SheetSettings.Attributes.Set.map Prod.fst).Nodup ∧
      (NewAttributes sampleAttributeExternals sampleEntity).Set =
        [("st", ⟨"st", 0, 0, 0, some sampleEntity⟩), ("dx", ⟨"dx", 0, 0, 1, some sampleEntity⟩),
          ("hp", ⟨"hp", 0, 0, 2, some sampleEntity⟩)] :=
  ⟨by decide,
    ((newAttributes_builds sampleAttributeExternals sampleEntity (by decide)
      (fun _ _ _ => rfl)).1).trans (by decide)⟩

/-! ## Pool thresholds -/

theorem thresholdLoop_eq_find (x : AttributeExternals) (state : String)
    (entity : Option Entity) (l : List PoolThreshold) :
    thresholdLoop x state entity l =
      (l.find? (fun one => x.EqualFold one.State state)).map
        (fun one => x.Threshold one entity) := by
  induction l with
  | nil => rfl
  | cons one rest ih =>
    unfold thresholdLoop
    by_cases h : x.EqualFold one.State state = true
    · simp [h]
    · simp [h, ih]

theorem find_first_match (x : AttributeExternals) (state : String)
    (pre post : List PoolThreshold) (one : PoolThreshold)
    (hPre : ∀ p ∈ pre, x.EqualFold p.State state = false)
    (hOne : x.EqualFold one.State state = true) :
    (pre ++ one :: post).find? (fun t => x.EqualFold t.State state) = some one := by
  induction pre with
  | nil => simp [hOne]
  | cons p rest ih =>
    have hp := hPre p (List.mem_cons_self _ _)
    simp only [List.cons_append, List.find?_cons, hp]
    exact ih (fun q hq => hPre q (List.mem_cons_of_mem _ hq))

/-- C12: PoolThreshold returns fxp.Min when the ID is not a key of the set, when the
attribute has no definition and when no threshold of the definition has the requested
State; otherwise it returns the Threshold, taken against the attribute's Entity, of the
first threshold in the definition's list whose State equals the requested name under
strings.EqualFold (equality ignoring letter case). -/
theorem poolThreshold_first_match (x : AttributeExternals) (a : Attributes)
    (attrID state : String) :
    (attrID ∉ mapKeys a.Set → a.PoolThreshold x attrID state = fxp_Min) ∧
      (∀ attr, a.Set.lookup attrID = some attr →
        (x.AttributeDef attr = none → a.PoolThreshold x attrID state = fxp_Min) ∧
        (∀ d, x.AttributeDef attr = some d →
          (a.PoolThreshold x attrID state =
            match d.Thresholds.find? (fun one => x.EqualFold one.State state) with
            | some one => x.Threshold one attr.Entity
            | none => fxp_Min) ∧
          ((∀ one ∈ d.Thresholds, x.EqualFold one.State state = false) →
            a.PoolThreshold x attrID state = fxp_Min) ∧
          (∀ pre one post, d.Thresholds = pre ++ one :: post →
            (∀ p ∈ pre, x.EqualFold p.State state = false) →
            x.EqualFold one.State state = true →
            a.PoolThreshold x attrID state = x.Threshold one attr.Entity))) := by
  refine ⟨?_, ?_⟩
  · intro hKey
    have hl := lookup_eq_none_of_not_key a.Set attrID hKey
    simp [Attributes.PoolThreshold, hl]
  · intro attr hattr
    refine ⟨?_, ?_⟩
    · intro hd
      simp [Attributes.PoolThreshold, hattr, hd]
    · intro d hd
      have key : a.PoolThreshold x attrID state =
          match d.Thresholds.find? (fun one => x.EqualFold one.State state) with
          | some one => x.Threshold one attr.Entity
          | none => fxp_Min := by
        simp only [Attributes.PoolThreshold, hattr, hd, thresholdLoop_eq_find]
        cases d.Thresholds.find? (fun one => x.EqualFold one.State state) <;> rfl
      refine ⟨key, ?_, ?_⟩
      · intro hnone
        rw [key]
        have : d.Thresholds.find? (fun one => x.EqualFold one.State state) = none := by
          rw [List.find?_eq_none]
          intro one hone
          simp [hnone one hone]
        rw [this]
      · intro pre one post hsplit hPre hOne
        rw [key, hsplit, find_first_match x state pre post one hPre hOne]

/-- C12, witness: on the set owned by the sample entity, the state `COLLAPSE` of `hp`
is found under its name `Collapse`, after `Tired`; `st` has no such state and `xx` is
no key. -/
theorem poolThreshold_first_match_witness :
    ownedAttributes.PoolThreshold sampleAttributeExternals "hp" "tired" = 50000 ∧
      ownedAttributes.PoolThreshold sampleAttributeExternals "st" "tired" = fxp_Min ∧
      ownedAttributes.PoolThreshold sampleAttributeExternals "xx" "tired" = fxp_Min ∧
      ownedAttributes.PoolThreshold sampleAttributeExternals "hp" "COLLAPSE" =
        sampleAttributeExternals.Threshold ⟨"Collapse", "0", "may pass out"⟩
          (some sampleEntity) :=
  ⟨by decide, by decide,
    (poolThreshold_first_match sampleAttributeExternals ownedAttributes "xx" "tired").1
      (by decide),
    ((((poolThreshold_first_match sampleAttributeExternals ownedAttributes "hp"
      "COLLAPSE").2 ⟨"hp", 0, 30000, 2, some sampleEntity⟩ (by decide)).2
        ⟨2, [⟨"Tired", "5", "half move"⟩, ⟨"Collapse", "0", "may pass out"⟩]⟩
        (by decide)).2.2) [⟨"Tired", "5", "half move"⟩] ⟨"Collapse", "0", "may pass out"⟩ []
        rfl (by decide) (by decide)⟩

/-! ## The fingerprint -/

theorem crcLoop_eq_foldl (x : AttributeExternals) (l : List Attribute) (c : Nat) :
    crcLoop x l c = l.foldl (fun c one => x.crc64 one c) c := by
  induction l generalizing c with
  | nil => rfl
  | cons one rest ih => simp [crcLoop, ih]

theorem list_length (a : Attributes) : a.List.length = a.Set.length := by
  simpa using (Attributes.List_perm a).length_eq

/-- C15, as the code has it: two sets with the same List() have the same CRC64, and
two iteration orders of one map whose Orders are pairwise distinct have the same List()
and the same CRC64. -/
theorem crc64_equal_on_equal_lists (x : AttributeExternals) (a b : Attributes) :
    (a.List = b.List → a.CRC64 x = b.CRC64 x) ∧
      (a.Set.Perm b.Set →
        (a.Set.map Prod.snd).Pairwise (fun u v => u.Order ≠ v.Order) →
        a.List = b.List ∧ a.CRC64 x = b.CRC64 x) := by
  have key : a.List = b.List → a.CRC64 x = b.CRC64 x := by
    intro h
    have hl : a.Set.length = b.Set.length := by
      rw [← list_length a, ← list_length b, h]
    unfold Attributes.CRC64
    rw [h, hl]
  refine ⟨key, fun hp hd => ?_⟩
  have hList : a.List = b.List :=
    sorted_perm_unique a.List b.List _ hd (Attributes.List_perm a)
      ((Attributes.List_perm b).trans (hp.symm.map Prod.snd)) (Attributes.List_sorted a)
      (Attributes.List_sorted b)
  exact ⟨hList, key hList⟩

/-- C15, witness: the sample set, whose Orders are distinct, and the same map iterated
in the opposite order. -/
theorem crc64_equal_on_equal_lists_witness :
    sampleAttributes.Set.Perm sampleAttributes.Set.reverse ∧
      (sampleAttributes.Set.map Prod.snd).Pairwise (fun u v => u.Order ≠ v.Order) ∧
      sampleAttributes.CRC64 sampleAttributeExternals =
        (Attributes.mk sampleAttributes.Set.reverse).CRC64 sampleAttributeExternals :=
  ⟨(List.reverse_perm _).symm, by decide,
    ((crc64_equal_on_equal_lists sampleAttributeExternals sampleAttributes
      (Attributes.mk sampleAttributes.Set.reverse)).2 (List.reverse_perm _).symm
      (by decide)).2⟩

/-- C15, counterexample: the map of two attributes that share the Order 0 has, under
its two iteration orders, two different lists and two different fingerprints. -/
theorem crc64_tied_orders_counterexample :
    tiedAttributes.Set.reverse.Perm tiedAttributes.Set ∧
      tiedAttributes.CRC64 sampleAttributeExternals = 331954 ∧
      (Attributes.mk tiedAttributes.Set.reverse).CRC64 sampleAttributeExternals = 631954 ∧
      (Attributes.mk tiedAttributes.Set.reverse).CRC64 sampleAttributeExternals ≠
        tiedAttributes.CRC64 sampleAttributeExternals :=
  ⟨List.reverse_perm _, by decide, by decide, by decide⟩

/-- C16: CRC64 is the left fold over List() of the crc64 step of each instance,
started from crc.Number(0, n) with n the number of entries of the set, which is also
the length of List(); for an empty set it is crc.Number(0, 0), and the step of the last
instance of List() is applied last. -/
theorem crc64_fold (x : AttributeExternals) (a : Attributes) :
    a.CRC64 x = a.List.foldl (fun c one => x.crc64 one c) (x.crcNumber 0 a.Set.length) ∧
      a.List.length = a.Set.length ∧
      (a.Set = [] → a.CRC64 x = x.crcNumber 0 0) ∧
      (∀ l v, a.List = l ++ [v] →
        a.CRC64 x =
          x.crc64 v (l.foldl (fun c one => x.crc64 one c) (x.crcNumber 0 a.Set.length))) := by
  have key : a.CRC64 x =
      a.List.foldl (fun c one => x.crc64 one c) (x.crcNumber 0 a.Set.length) := by
    unfold Attributes.CRC64
    rw [crcLoop_eq_foldl]
  refine ⟨key, list_length a, ?_, ?_⟩
  · intro h
    have hl : a.List = [] := List.length_eq_zero.mp (by rw [list_length, h]; rfl)
    rw [key, hl, h]
    rfl
  · intro l v h
    rw [key, h, List.foldl_append]
    rfl

/-- C16, witness: on the sample set the count 3 is mixed in first, then `st`, `12`
and `iq` in the order of List(). -/
theorem crc64_fold_witness :
    sampleAttributes.CRC64 sampleAttributeExternals =
        sampleAttributeExternals.crc64 ⟨"iq", 0, 0, 2, none⟩
          (sampleAttributeExternals.crc64 ⟨"12", 20000, 10000, 1, none⟩
            (sampleAttributeExternals.crc64 ⟨"st", 10000, 0, 0, none⟩
              (sampleAttributeExternals.crcNumber 0 3))) :=
  ((crc64_fold sampleAttributeExternals sampleAttributes).1).trans (by decide)

/-! ## Cloning an attribute set -/

theorem foldl_assign_on_heap {β : Type} (f : β → String × Attribute) (l : List β)
    (h : MapHeap) (c : Nat) :
    (l.foldl (fun hh b => hh.assign c (f b).1 (f b).2) h).next = h.next ∧
      (l.foldl (fun hh b => hh.assign c (f b).1 (f b).2) h).maps c =
        l.foldl (fun s b => mapAssign s (f b).1 (f b).2) (h.maps c) ∧
      ∀ m, m ≠ c → (l.foldl (fun hh b => hh.assign c (f b).1 (f b).2) h).maps m = h.maps m := by
  induction l generalizing h with
  | nil => exact ⟨rfl, rfl, fun _ _ => rfl⟩
  | cons b rest ih =>
    obtain ⟨h1, h2, h3⟩ := ih (h.assign c (f b).1 (f b).2)
    simp only [List.foldl_cons]
    refine ⟨h1, ?_, ?_⟩
    · rw [h2]
      simp [MapHeap.assign]
    · intro m hm
      rw [h3 m hm]
      simp [MapHeap.assign, Function.update_noteq hm]

/-- The heap after Clone: the new map sits at the next address and holds what the
receiver's map gives entry by entry; every other map is as it was. -/
theorem cloneOnHeap_result (x : AttributeExternals) (h : MapHeap) (a : Nat)
    (entity : Entity) :
    (Attributes.CloneOnHeap x h a entity).2 = h.next ∧
      (Attributes.CloneOnHeap x h a entity).1.maps h.next =
        (Attributes.Clone x ⟨h.maps a⟩ entity).Set ∧
      ∀ m, m ≠ h.next → (Attributes.CloneOnHeap x h a entity).1.maps m = h.maps m := by
  obtain ⟨_, h2, h3⟩ := foldl_assign_on_heap
    (fun kv : String × Attribute => (kv.1, x.Clone kv.2 entity)) (h.maps a) h.make.1 h.next
  refine ⟨rfl, ?_, ?_⟩
  · unfold Attributes.CloneOnHeap Attributes.Clone
    simp only [MapHeap.make] at h2 ⊢
    rw [h2]
    simp
  · intro m hm
    unfold Attributes.CloneOnHeap
    simp only [MapHeap.make] at h3 ⊢
    rw [h3 m hm]
    simp [Function.update_noteq hm]

/-- C17: Clone(entity) on a receiver whose map lives at a valid address `a` returns a
set over a map at a new address `c`; that map has exactly the keys of the receiver's
map and holds under each key the Clone, made for the entity, of the receiver's value;
the receiver's map and every other map are as before the call; and assigning to or
deleting from one of the two maps afterwards leaves the other as it is. -/
theorem clone_fresh_deep_copy (x : AttributeExternals) (h h' : MapHeap) (a c : Nat)
    (entity : Entity) (hValid : a < h.next)
    (hClone : Attributes.CloneOnHeap x h a entity = (h', c)) :
    c ≠ a ∧
      h'.maps c = (Attributes.Clone x ⟨h.maps a⟩ entity).Set ∧
      (∀ k, k ∈ mapKeys (h'.maps c) ↔ k ∈ mapKeys (h.maps a)) ∧
      ((mapKeys (h.maps a)).Nodup →
        h'.maps c = (h.maps a).map (fun kv => (kv.1, x.Clone kv.2 entity))) ∧
      (∀ m, m < h.next → h'.maps m = h.maps m) ∧
      (∀ k v, (h'.assign c k v).maps a = h.maps a ∧ (h'.delete c k).maps a = h.maps a) ∧
      (∀ k v, (h'.assign a k v).maps c = h'.maps c ∧ (h'.delete a k).maps c = h'.maps c) := by
  obtain ⟨r1, r2, r3⟩ := cloneOnHeap_result x h a entity
  rw [hClone] at r1 r2 r3
  simp only at r1 r2 r3
  subst r1
  have hne : h.next ≠ a := by omega
  have hun : ∀ m, m < h.next → h'.maps m = h.maps m := fun m hm => r3 m (by omega)
  refine ⟨hne, r2, ?_, ?_, hun, ?_, ?_⟩
  · intro k
    rw [r2]
    unfold Attributes.Clone
    simp only
    rw [mem_mapKeys_foldl (fun kv : String × Attribute => (kv.1, x.Clone kv.2 entity))]
    simp [mapKeys]
  · intro hnd
    rw [r2]
    unfold Attributes.Clone
    simp only
    rw [foldl_assign_fresh (fun kv : String × Attribute => (kv.1, x.Clone kv.2 entity))]
    · simp
    · simpa [mapKeys] using hnd
  · intro k v
    refine ⟨?_, ?_⟩
    · simp only [MapHeap.assign, Function.update_noteq hne.symm]
      exact hun a hValid
    · simp only [MapHeap.delete, Function.update_noteq hne.symm]
      exact hun a hValid
  · intro k v
    exact ⟨by simp only [MapHeap.assign, Function.update_noteq hne],
      by simp only [MapHeap.delete, Function.update_noteq hne]⟩

/-- C17, witness: the sample set, at address 0 of a heap of two maps, is cloned for the
sample entity to address 2; the clones carry the new owner and the map at address 0 is
as before. -/
theorem clone_fresh_deep_copy_witness :
    0 < sampleHeap.next ∧
      (Attributes.CloneOnHeap sampleAttributeExternals sampleHeap 0 sampleEntity).2 = 2 ∧
      (Attributes.CloneOnHeap sampleAttributeExternals sampleHeap 0 sampleEntity).1.maps 2 =
        [("iq", ⟨"iq", 0, 0, 2, some sampleEntity⟩),
          ("st", ⟨"st", 10000, 0, 0, some sampleEntity⟩),
          ("12", ⟨"12", 20000, 10000, 1, some sampleEntity⟩)] ∧
      (Attributes.CloneOnHeap sampleAttributeExternals sampleHeap 0 sampleEntity).1.maps 0 =
        sampleAttributes.Set :=
  ⟨by decide, rfl,
    ((clone_fresh_deep_copy sampleAttributeExternals sampleHeap
      (Attributes.CloneOnHeap sampleAttributeExternals sampleHeap 0 sampleEntity).1 0
      (Attributes.CloneOnHeap sampleAttributeExternals sampleHeap 0 sampleEntity).2
      sampleEntity (by decide) rfl).2.2.2.1 (by decide)).trans (by decide),
    (clone_fresh_deep_copy sampleAttributeExternals sampleHeap
      (Attributes.CloneOnHeap sampleAttributeExternals sampleHeap 0 sampleEntity).1 0
      (Attributes.CloneOnHeap sampleAttributeExternals sampleHeap 0 sampleEntity).2
      sampleEntity (by decide) rfl).2.2.2.2.1 0 (by decide)⟩

/-! ## The map operations read back -/

theorem lookup_append_single (m : List (String × Attribute)) (k k' : String)
    (v : Attribute) :
    (m ++ [(k, v)]).lookup k' =
      match m.lookup k' with
      | some w => some w
      | none => if k' = k then some v else none := by
  induction m with
  | nil =>
    by_cases h : k' = k
    · simp [List.lookup_cons, h]
    · have hb : (k' == k) = false := by simpa using h
      simp [List.lookup_cons, h, hb]
  | cons kv rest ih =>
    obtain ⟨k0, v0⟩ := kv
    by_cases h0 : k' = k0
    · simp [List.lookup_cons, h0]
    · have hb : (k' == k0) = false := by simpa using h0
      simp only [List.cons_append, List.lookup_cons, hb]
      exact ih

/-- After `m[k] = v` the key `k` reads `v`. -/
theorem lookup_mapAssign_self (m : List (String × Attribute)) (k : String) (v : Attribute) :
    (mapAssign m k v).lookup k = some v := by
  by_cases h : k ∈ mapKeys m
  · unfold mapKeys at h
    unfold mapAssign
    rw [if_pos h]
    induction m with
    | nil => simp at h
    | cons kv rest ih =>
      obtain ⟨k0, v0⟩ := kv
      by_cases h0 : k0 = k
      · simp [List.lookup_cons, h0]
      · have hb : (k == k0) = false := by simpa using fun e : k = k0 => h0 e.symm
        have hr : k ∈ rest.map Prod.fst := by
          rcases List.mem_cons.mp h with h1 | h1
          · exact absurd h1.symm h0
          · exact h1
        simp only [List.map_cons, h0, if_false, List.lookup_cons, hb]
        exact ih hr
  · rw [mapAssign_of_not_key m k v h, lookup_append_single,
      lookup_eq_none_of_not_key m k h]
    simp

/-- After `m[k] = v` every other key reads what it read before. -/
theorem lookup_mapAssign_of_ne (m : List (String × Attribute)) (k k' : String)
    (v : Attribute) (hne : k' ≠ k) : (mapAssign m k v).lookup k' = m.lookup k' := by
  by_cases h : k ∈ mapKeys m
  · unfold mapKeys at h
    unfold mapAssign
    rw [if_pos h]
    clear h
    induction m with
    | nil => rfl
    | cons kv rest ih =>
      obtain ⟨k0, v0⟩ := kv
      by_cases h0 : k0 = k
      · subst h0
        have hb : (k' == k0) = false := by simpa using hne
        simp only [List.map_cons, if_true, List.lookup_cons, hb]
        exact ih
      · simp only [List.map_cons, h0, if_false, List.lookup_cons]
        rw [ih]
  · rw [mapAssign_of_not_key m k v h, lookup_append_single]
    cases m.lookup k' with
    | none => simp [hne]
    | some w => rfl

/-- After `delete(m, k)` the key `k` is gone and every other key reads what it read
before. -/
theorem lookup_mapDelete (m : List (String × Attribute)) (k k' : String) :
    (mapDelete m k).lookup k' = if k' = k then none else m.lookup k' := by
  unfold mapDelete
  induction m with
  | nil => simp
  | cons kv rest ih =>
    obtain ⟨k0, v0⟩ := kv
    by_cases h0 : k0 = k
    · have hf : List.filter (fun kv : String × Attribute => decide (kv.1 ≠ k))
          ((k0, v0) :: rest) =
          List.filter (fun kv : String × Attribute => decide (kv.1 ≠ k)) rest := by
        simp [List.filter_cons, h0]
      rw [hf, ih]
      by_cases h1 : k' = k
      · simp [h1]
      · have hb : (k' == k0) = false := by rw [h0]; simpa using h1
        simp [h1, List.lookup_cons, hb]
    · have hf : List.filter (fun kv : String × Attribute => decide (kv.1 ≠ k))
          ((k0, v0) :: rest) =
          (k0, v0) :: List.filter (fun kv : String × Attribute => decide (kv.1 ≠ k)) rest := by
        simp [List.filter_cons, h0]
      rw [hf, List.lookup_cons, List.lookup_cons, ih]
      by_cases h1 : k' = k0
      · have hk : k' ≠ k := by rw [h1]; exact h0
        simp [h1, hk, h0]
      · have hb : (k' == k0) = false := by simpa using h1
        simp [hb]

/-! ## Cost, size modifier and factory defaults -/

/-- C30: Cost(id) is the PointCost of the instance stored under the ID when the ID is a
key of the set and 0 otherwise, whatever fxp.FromString makes of the ID: an ID that is
not a key costs 0 also when Current and Maximum read it as a number or return
fxp.Min, and 0 is not fxp.Min. -/
theorem cost_never_sentinel (PointCost : Attribute → FxpInt) (x : Externals)
    (a : Attributes) (attrID : String) :
    (∀ attr, a.Set.lookup attrID = some attr → a.Cost PointCost attrID = PointCost attr) ∧
      (attrID ∉ a.Set.map Prod.fst →
        a.Cost PointCost attrID = 0 ∧
        (∀ v, x.FromString attrID = some v →
          a.Current x attrID = v ∧ a.Maximum x attrID = v ∧ a.Cost PointCost attrID = 0) ∧
        (x.FromString attrID = none →
          a.Current x attrID = fxp_Min ∧ a.Maximum x attrID = fxp_Min ∧
            a.Cost PointCost attrID = 0)) ∧
      (0 : FxpInt) ≠ fxp_Min := by
  refine ⟨?_, ?_, by decide⟩
  · intro attr h
    simp [Attributes.Cost, h]
  · intro hKey
    have hl := lookup_eq_none_of_not_key a.Set attrID hKey
    have h0 : a.Cost PointCost attrID = 0 := by simp [Attributes.Cost, hl]
    refine ⟨h0, ?_, ?_⟩
    · intro v hv
      simp [Attributes.Current, Attributes.Maximum, hl, hv, h0]
    · intro hn
      simp [Attributes.Current, Attributes.Maximum, hl, hn, h0]

/-- C30, witness: on the sample set the key `st` costs what its instance costs (here
its adjustment), while `15`, which Current reads as the number 15, and `xyz_unknown`,
for which Current returns fxp.Min, cost 0. -/
theorem cost_never_sentinel_witness :
    sampleAttributes.Cost (fun attr => attr.Adjustment) "st" = 10000 ∧
      "15" ∉ sampleAttributes.Set.map Prod.fst ∧
      sampleAttributes.Cost (fun attr => attr.Adjustment) "15" = 0 ∧
      sampleAttributes.Current sampleExternals "15" = 150000 ∧
      sampleAttributes.Cost (fun attr => attr.Adjustment) "xyz_unknown" = 0 ∧
      sampleAttributes.Current sampleExternals "xyz_unknown" = fxp_Min :=
  ⟨(cost_never_sentinel (fun attr => attr.Adjustment) sampleExternals sampleAttributes
      "st").1 ⟨"st", 10000, 0, 0, none⟩ (by decide),
    by decide,
    ((cost_never_sentinel (fun attr => attr.Adjustment) sampleExternals sampleAttributes
      "15").2.1 (by decide)).1,
    by decide,
    ((cost_never_sentinel (fun attr => attr.Adjustment) sampleExternals sampleAttributes
      "xyz_unknown").2.1 (by decide)).1,
    by decide⟩

theorem wrapInt_of_isInt (n : Int) (h : isInt n) : wrapInt n = n := by
  unfold isInt at h
  unfold wrapInt
  omega

theorem wrapInt_sub_add (value b : Int) : wrapInt (wrapInt (value - b) + b) = wrapInt value := by
  unfold wrapInt
  omega

/-- C23: for every profile and every `int` value, after SetAdjustedSizeModifier(value)
AdjustedSizeModifier() returns value, also when the subtraction or the addition wraps
around; SizeModifierBonus and the tech level are unchanged, and when value already is
AdjustedSizeModifier() the profile is not modified. -/
theorem sizeModifier_round_trip (asInt : FxpInt → Int) (p : Profile) (value : Int)
    (hValue : isInt value) :
    (p.SetAdjustedSizeModifier asInt value).AdjustedSizeModifier asInt = value ∧
      (p.SetAdjustedSizeModifier asInt value).SizeModifierBonus = p.SizeModifierBonus ∧
      (p.SetAdjustedSizeModifier asInt value).TechLevel = p.TechLevel ∧
      (value = p.AdjustedSizeModifier asInt → p.SetAdjustedSizeModifier asInt value = p) := by
  unfold Profile.SetAdjustedSizeModifier
  by_cases h : value ≠ p.AdjustedSizeModifier asInt
  · rw [if_pos h]
    refine ⟨?_, rfl, rfl, fun he => absurd he h⟩
    unfold Profile.AdjustedSizeModifier
    simp only
    rw [wrapInt_sub_add, wrapInt_of_isInt value hValue]
  · rw [if_neg h]
    exact ⟨(not_not.mp h).symm, rfl, rfl, fun _ => rfl⟩

/-- C23, witness: a size modifier of 1 with a bonus of 2 is set to 5, and to the
largest `int`, where the stored value wraps. -/
theorem sizeModifier_round_trip_witness :
    isInt 5 ∧
      ((⟨"3", 1, 20000⟩ : Profile).SetAdjustedSizeModifier (fun v => v / 10000) 5) =
        ⟨"3", 3, 20000⟩ ∧
      ((⟨"3", 1, 20000⟩ : Profile).SetAdjustedSizeModifier (fun v => v / 10000)
        5).AdjustedSizeModifier (fun v => v / 10000) = 5 ∧
      ((⟨"3", 1, -20000⟩ : Profile).SetAdjustedSizeModifier (fun v => v / 10000)
        9223372036854775807).AdjustedSizeModifier (fun v => v / 10000) =
          9223372036854775807 :=
  ⟨by decide, by decide,
    (sizeModifier_round_trip (fun v => v / 10000) ⟨"3", 1, 20000⟩ 5 (by decide)).1,
    (sizeModifier_round_trip (fun v => v / 10000) ⟨"3", 1, -20000⟩ 9223372036854775807
      (by decide)).1⟩

theorem resetIfOutOfRange_idem (value min max dflt : Int) :
    fxp_ResetIfOutOfRange (fxp_ResetIfOutOfRange value min max dflt) min max dflt =
      fxp_ResetIfOutOfRange value min max dflt := by
  by_cases h : min ≤ value ∧ value ≤ max
  · have e : fxp_ResetIfOutOfRange value min max dflt = value := by
      rw [resetIfOutOfRange_eq, if_pos h]
    rw [e, e]
  · have e : fxp_ResetIfOutOfRange value min max dflt = dflt := by
      rw [resetIfOutOfRange_eq, if_neg h]
    rw [e, resetIfOutOfRange_eq]
    split <;> rfl

theorem resetIfOutOfRangeInt_idem (value min max dflt : Int) :
    fxp_ResetIfOutOfRangeInt (fxp_ResetIfOutOfRangeInt value min max dflt) min max dflt =
      fxp_ResetIfOutOfRangeInt value min max dflt :=
  resetIfOutOfRange_idem value min max dflt

/-- C21: Clamp (fxp.ResetIfOutOfRange and its `int` form) is idempotent for all values
of its four arguments, also for a default outside `[min, max]`; EnsureValidity applied
twice gives what it gives applied once; and it leaves the factory defaults of
NewGeneral as they are. -/
theorem ensureValidity_idempotent (value min max dflt : Int) (s : General) (name : String) :
    (fxp_ResetIfOutOfRange (fxp_ResetIfOutOfRange value min max dflt) min max dflt =
        fxp_ResetIfOutOfRange value min max dflt ∧
      fxp_ResetIfOutOfRangeInt (fxp_ResetIfOutOfRangeInt value min max dflt) min max dflt =
        fxp_ResetIfOutOfRangeInt value min max dflt) ∧
      s.EnsureValidity.EnsureValidity = s.EnsureValidity ∧
      (NewGeneral name).EnsureValidity = NewGeneral name := by
  refine ⟨⟨resetIfOutOfRange_idem value min max dflt,
    resetIfOutOfRangeInt_idem value min max dflt⟩, ?_, ?_⟩
  · simp only [General.EnsureValidity, resetIfOutOfRange_idem, resetIfOutOfRangeInt_idem]
  · have h1 : fxp_ResetIfOutOfRange InitialPointsDef InitialPointsMin InitialPointsMax
        InitialPointsDef = InitialPointsDef := by decide
    have h2 : fxp_ResetIfOutOfRange TooltipDelayDef TooltipDelayMin TooltipDelayMax
        TooltipDelayDef = TooltipDelayDef := by decide
    have h3 : fxp_ResetIfOutOfRange TooltipDismissalDef TooltipDismissalMin
        TooltipDismissalMax TooltipDismissalDef = TooltipDismissalDef := by decide
    have h4 : fxp_ResetIfOutOfRangeInt ImageResolutionDef ImageResolutionMin
        ImageResolutionMax ImageResolutionDef = ImageResolutionDef := by decide
    have h5 : fxp_ResetIfOutOfRangeInt InitialListUIScaleDef InitialUIScaleMin
        InitialUIScaleMax InitialListUIScaleDef = InitialListUIScaleDef := by decide
    have h6 : fxp_ResetIfOutOfRangeInt InitialSheetUIScaleDef InitialUIScaleMin
        InitialUIScaleMax InitialSheetUIScaleDef = InitialSheetUIScaleDef := by decide
    unfold NewGeneral
    simp only [General.EnsureValidity, h1, h2, h3, h4, h5, h6]

/-! ## Recent files -/

theorem listReadable_eq_filter (readable : String → Bool) (files list : List String) :
    listReadable readable files list = list ++ files.filter readable := by
  induction files generalizing list with
  | nil => simp [listReadable]
  | cons one rest ih =>
    unfold listReadable
    rw [ih]
    by_cases h : readable one = true
    · simp [h]
    · simp [h]

theorem copySlice_fresh (list : List String) :
    copySlice (List.replicate list.length "") list = list := by
  simp [copySlice]

/-- C22: ListRecentFiles returns exactly the readable files of RecentFiles, in their
order, and leaves that same list in RecentFiles; when every file is readable
RecentFiles is as it was. -/
theorem listRecentFiles_filters (x : SettingsExternals) (s : Settings) :
    (s.ListRecentFiles x).1 = s.RecentFiles.filter x.FileIsReadable ∧
      (s.ListRecentFiles x).2.RecentFiles = s.RecentFiles.filter x.FileIsReadable ∧
      ((∀ f ∈ s.RecentFiles, x.FileIsReadable f = true) → (s.ListRecentFiles x).2 = s) ∧
      (s.RecentFiles.filter x.FileIsReadable).Sublist s.RecentFiles := by
  have hlist : listReadable x.FileIsReadable s.RecentFiles [] =
      s.RecentFiles.filter x.FileIsReadable := by
    rw [listReadable_eq_filter]
    rfl
  unfold Settings.ListRecentFiles
  simp only [hlist]
  by_cases h : (s.RecentFiles.filter x.FileIsReadable).length ≠ s.RecentFiles.length
  · rw [if_pos h]
    refine ⟨rfl, copySlice_fresh _, ?_, List.filter_sublist _⟩
    intro hall
    exact absurd (List.filter_length_eq_length.mpr hall) h
  · rw [if_neg h]
    have hall := List.filter_length_eq_length.mp (not_not.mp h)
    exact ⟨rfl, (List.filter_eq_self.mpr hall).symm, fun _ => rfl, List.filter_sublist _⟩

/-- C22, witness: of three recent files the second is gone. -/
theorem listRecentFiles_filters_witness :
    (sampleSettings.ListRecentFiles sampleSettingsExternals).1 =
        ["/home/a.gcs", "/home/c.gcs"] ∧
      (sampleSettings.ListRecentFiles sampleSettingsExternals).2.RecentFiles =
        ["/home/a.gcs", "/home/c.gcs"] :=
  ⟨((listRecentFiles_filters sampleSettingsExternals sampleSettings).1).trans (by decide),
    ((listRecentFiles_filters sampleSettingsExternals sampleSettings).2.1).trans (by decide)⟩

theorem findRecent_none (full : String) (files : List String) (i : Nat)
    (h : full ∉ files) : findRecent full files i = none := by
  induction files generalizing i with
  | nil => rfl
  | cons f rest ih =>
    have hf : f ≠ full := fun e => h (by rw [e]; exact List.mem_cons_self _ _)
    unfold findRecent
    rw [if_neg hf]
    exact ih _ (fun hm => h (List.mem_cons_of_mem _ hm))

theorem findRecent_split (full : String) (pre post : List String) (i : Nat)
    (h : full ∉ pre) : findRecent full (pre ++ full :: post) i = some (i + pre.length) := by
  induction pre generalizing i with
  | nil => simp [findRecent]
  | cons f rest ih =>
    have hf : f ≠ full := fun e => h (by rw [e]; exact List.mem_cons_self _ _)
    rw [List.cons_append, findRecent, if_neg hf,
      ih _ (fun hm => h (List.mem_cons_of_mem _ hm)), List.length_cons]
    congr 1
    omega

theorem drop_length_cons_single (f : String) (post : List String) :
    ∃ z, (f :: post).drop post.length = [z] := by
  induction post generalizing f with
  | nil => exact ⟨f, rfl⟩
  | cons a t ih =>
    obtain ⟨z, hz⟩ := ih a
    exact ⟨z, by simpa using hz⟩

theorem removeRecent_split (pre post : List String) (f : String) :
    removeRecent (pre ++ f :: post) pre.length = pre ++ post := by
  unfold removeRecent copySlice
  have h1 : (pre ++ f :: post).take pre.length = pre := by simp
  have h2 : (pre ++ f :: post).drop pre.length = f :: post := by simp
  have h3 : (pre ++ f :: post).drop (pre.length + 1) = post := by
    rw [← List.drop_drop, h2]
    rfl
  simp only [h1, h2, h3]
  have h4 : min (f :: post).length post.length = post.length := by simp
  rw [h4]
  have h5 : post.take post.length = post := List.take_length _
  obtain ⟨z, hz⟩ := drop_length_cons_single f post
  rw [h5, hz]
  have hl : (pre ++ (post ++ [z])).length - 1 = (pre ++ post).length := by simp
  rw [hl, ← List.append_assoc, List.set_append_right _ _ (le_refl _)]
  simp only [Nat.sub_self, List.set_cons_zero, List.length_append, List.length_singleton,
    Nat.add_sub_cancel]
  exact List.take_left' (by simp)

theorem pushRecent_eq (files : List String) (full : String) :
    pushRecent files full = (full :: files).take maxRecentFiles := by
  have key : ((files ++ [""]).take 1 ++
      copySlice ((files ++ [""]).drop 1) (files ++ [""])).set 0 full = full :: files := by
    cases files with
    | nil => rfl
    | cons a t =>
      simp only [List.cons_append, List.take_succ_cons, List.take_zero, List.drop_succ_cons,
        List.drop_zero, copySlice, List.length_append, List.length_cons, List.length_nil]
      have hm : min (t.length + (0 + 1)) (t.length + (0 + 1) + 1) = t.length + 1 := by omega
      rw [hm]
      simp
  unfold pushRecent
  simp only [key]
  split
  · rfl
  · rename_i h
    rw [List.take_of_length_le (by omega)]

theorem erase_split (full : String) (pre post : List String) (h : full ∉ pre) :
    (pre ++ full :: post).erase full = pre ++ post := by
  rw [List.erase_append_right _ h]
  simp

theorem recent_after_find (full : String) (files : List String) :
    (match findRecent full files 0 with
      | some i => removeRecent files i
      | none => files) = files.erase full := by
  by_cases h : full ∈ files
  · obtain ⟨pre, post, hsplit, hpre⟩ := List.eq_append_cons_of_mem h
    rw [hsplit, findRecent_split full pre post 0 hpre, erase_split full pre post hpre]
    simp only [Nat.zero_add]
    exact removeRecent_split pre post full
  · rw [findRecent_none full files 0 h, List.erase_of_not_mem h]

theorem addRecentLoop_of_mem (x : SettingsExternals) (s : Settings) (filePath ext : String)
    (exts : List String) (h : ext ∈ exts) :
    addRecentLoop x s filePath ext exts =
      match x.Abs filePath with
      | none => s
      | some full =>
        if x.FileIsReadable full then
          { s with RecentFiles := ((full :: s.RecentFiles.erase full).take maxRecentFiles) }
        else s := by
  induction exts with
  | nil => cases h
  | cons one rest ih =>
    unfold addRecentLoop
    by_cases h1 : one = ext
    · rw [if_pos h1]
      cases x.Abs filePath with
      | none => rfl
      | some full =>
        simp only [recent_after_find, pushRecent_eq]
    · rw [if_neg h1]
      rcases List.mem_cons.mp h with h2 | h2
      · exact absurd h2.symm h1
      · exact ih h2

theorem addRecentLoop_of_not_mem (x : SettingsExternals) (s : Settings)
    (filePath ext : String) (exts : List String) (h : ext ∉ exts) :
    addRecentLoop x s filePath ext exts = s := by
  induction exts with
  | nil => rfl
  | cons one rest ih =>
    unfold addRecentLoop
    have h1 : one ≠ ext := fun e => h (by rw [e]; exact List.mem_cons_self _ _)
    rw [if_neg h1]
    exact ih (fun hm => h (List.mem_cons_of_mem _ hm))

/-- C28: when the extension of the path is acceptable, the path has the absolute form
`full` and `full` is readable, RecentFiles after AddRecentFile is the first 20 entries
of `full` followed by the old list without its first occurrence of `full`: `full` is at
index 0, the entries after it are entries of the old list in their old order, a list
without duplicates stays so, and there are at most 20 entries. When the extension is
not acceptable, the path has no absolute form or `full` is not readable, the settings
are unchanged. -/
theorem addRecentFile_bounded (x : SettingsExternals) (s : Settings) (filePath : String) :
    (∀ full, recentExt x filePath ∈ x.AcceptableExtensions → x.Abs filePath = some full →
        x.FileIsReadable full = true →
        (s.AddRecentFile x filePath).RecentFiles =
            (full :: s.RecentFiles.erase full).take 20 ∧
          (s.AddRecentFile x filePath).RecentFiles.head? = some full ∧
          (s.AddRecentFile x filePath).RecentFiles.tail.Sublist s.RecentFiles ∧
          (s.RecentFiles.Nodup → (s.AddRecentFile x filePath).RecentFiles.Nodup) ∧
          (s.AddRecentFile x filePath).RecentFiles.length ≤ 20) ∧
      (recentExt x filePath ∉ x.AcceptableExtensions → s.AddRecentFile x filePath = s) ∧
      (x.Abs filePath = none → s.AddRecentFile x filePath = s) ∧
      (∀ full, x.Abs filePath = some full → x.FileIsReadable full = false →
        s.AddRecentFile x filePath = s) := by
  refine ⟨?_, ?_, ?_, ?_⟩
  · intro full hExt hAbs hRead
    have key : (s.AddRecentFile x filePath).RecentFiles =
        (full :: s.RecentFiles.erase full).take 20 := by
      unfold Settings.AddRecentFile
      rw [addRecentLoop_of_mem x s filePath _ _ hExt, hAbs]
      simp only [hRead, if_true]
      rfl
    rw [key]
    refine ⟨rfl, rfl, ?_, ?_, ?_⟩
    · have h1 : ((full :: s.RecentFiles.erase full).take 20).tail =
          (s.RecentFiles.erase full).take 19 := rfl
      rw [h1]
      exact (List.take_sublist _ _).trans (List.erase_sublist _ _)
    · intro hnd
      refine List.Nodup.sublist (List.take_sublist _ _) ?_
      exact List.nodup_cons.mpr ⟨fun hm => (hnd.mem_erase_iff.mp hm).1 rfl, hnd.erase full⟩
    · exact (List.length_take_le _ _)
  · intro hExt
    exact addRecentLoop_of_not_mem x s filePath _ _ hExt
  · intro hAbs
    by_cases hExt : recentExt x filePath ∈ x.AcceptableExtensions
    · unfold Settings.AddRecentFile
      rw [addRecentLoop_of_mem x s filePath _ _ hExt, hAbs]
    · exact addRecentLoop_of_not_mem x s filePath _ _ hExt
  · intro full hAbs hRead
    by_cases hExt : recentExt x filePath ∈ x.AcceptableExtensions
    · unfold Settings.AddRecentFile
      rw [addRecentLoop_of_mem x s filePath _ _ hExt, hAbs]
      simp [hRead]
    · exact addRecentLoop_of_not_mem x s filePath _ _ hExt

/-- C28, witness: opening the third recent file again moves it to the front; a text
file and a missing file change nothing. -/
theorem addRecentFile_bounded_witness :
    recentExt sampleSettingsExternals "/home/c.GCS" ∈
        sampleSettingsExternals.AcceptableExtensions ∧
      (sampleSettings.AddRecentFile sampleSettingsExternals "/home/c.gcs").RecentFiles =
        ["/home/c.gcs", "/home/a.gcs", "/home/b!.gcs"] ∧
      sampleSettings.AddRecentFile sampleSettingsExternals "/home/notes.txt" = sampleSettings ∧
      sampleSettings.AddRecentFile sampleSettingsExternals "/home/d!.gcs" = sampleSettings :=
  ⟨by decide,
    (((addRecentFile_bounded sampleSettingsExternals sampleSettings "/home/c.gcs").1
      "/home/c.gcs" (by decide) (by decide) (by decide)).1).trans (by decide),
    (addRecentFile_bounded sampleSettingsExternals sampleSettings "/home/notes.txt").2.1
      (by decide),
    (addRecentFile_bounded sampleSettingsExternals sampleSettings "/home/d!.gcs").2.2.2
      "/home/d!.gcs" (by decide) (by decide)⟩

/-! ## Properties of whole prerequisite trees -/

mutual
theorem prereq_verdict_sink (x : Externals) :
    ∀ (one : Prereq), one.sinkFree →
      ∀ (entity : Entity) (exclude : Exclude) (b1 b2 : Option ByteBuffer) (pfx : String),
        (Prereq.Satisfied x one entity exclude b1 pfx).1 =
          (Prereq.Satisfied x one entity exclude b2 pfx).1
  | .leaf l, h, entity, exclude, b1, b2, pfx => by
    simp only [Prereq.sinkFree] at h
    simp only [Prereq.Satisfied]
    exact h entity exclude b1 b2 pfx
  | .list p, h, entity, exclude, b1, b2, pfx => by
    simp only [Prereq.sinkFree] at h
    simp only [Prereq.Satisfied]
    exact list_verdict_sink x p h entity exclude b1 b2 pfx
theorem list_verdict_sink (x : Externals) :
    ∀ (p : PrereqList), p.sinkFree →
      ∀ (entity : Entity) (exclude : Exclude) (b1 b2 : Option ByteBuffer) (pfx : String),
        (PrereqList.Satisfied x p entity exclude b1 pfx).1 =
          (PrereqList.Satisfied x p entity exclude b2 pfx).1
  | .mk all whenTL prereqs, h, entity, exclude, b1, b2, pfx => by
    simp only [PrereqList.sinkFree] at h
    have hc := childVerdicts_sink x prereqs h entity exclude
    by_cases hg : gateShortCircuits x (.mk all whenTL prereqs) entity
    · rw [PrereqList.Satisfied_of_gate x _ entity exclude b1 pfx hg,
        PrereqList.Satisfied_of_gate x _ entity exclude b2 pfx hg]
    · rw [PrereqList.Satisfied_verdict x _ entity exclude b1 pfx hg,
        PrereqList.Satisfied_verdict x _ entity exclude b2 pfx hg]
      simp only [PrereqList.Prereqs, hc (localBuffer b1) (localBuffer b2) pfx]
theorem childVerdicts_sink (x : Externals) :
    ∀ (ps : List Prereq), PrereqList.sinkFreeAll ps →
      ∀ (entity : Entity) (exclude : Exclude) (l1 l2 : Option ByteBuffer) (pfx : String),
        childVerdicts x ps entity exclude l1 pfx = childVerdicts x ps entity exclude l2 pfx
  | [], _, _, _, _, _, _ => rfl
  | one :: rest, h, entity, exclude, l1, l2, pfx => by
    simp only [PrereqList.sinkFreeAll] at h
    simp only [childVerdicts]
    rw [prereq_verdict_sink x one h.1 entity exclude l1 l2 pfx,
      childVerdicts_sink x rest h.2 entity exclude
        (Prereq.Satisfied x one entity exclude l1 pfx).2
        (Prereq.Satisfied x one entity exclude l2 pfx).2 pfx]
end

mutual
theorem prereq_satisfied_congr (x y : Externals) (entity : Entity)
    (hAny : x.AnyNumber = y.AnyNumber)
    (hM : ∀ c q, x.Matches c q (max (x.ExtractTechLevel entity.Profile.TechLevel) 0) =
      y.Matches c q (max (y.ExtractTechLevel entity.Profile.TechLevel) 0)) :
    ∀ (one : Prereq) (exclude : Exclude) (buffer : Option ByteBuffer) (pfx : String),
      Prereq.Satisfied x one entity exclude buffer pfx =
        Prereq.Satisfied y one entity exclude buffer pfx
  | .leaf l, exclude, buffer, pfx => by
    simp only [Prereq.Satisfied]
  | .list p, exclude, buffer, pfx => by
    simp only [Prereq.Satisfied]
    exact list_satisfied_congr x y entity hAny hM p exclude buffer pfx
theorem list_satisfied_congr (x y : Externals) (entity : Entity)
    (hAny : x.AnyNumber = y.AnyNumber)
    (hM : ∀ c q, x.Matches c q (max (x.ExtractTechLevel entity.Profile.TechLevel) 0) =
      y.Matches c q (max (y.ExtractTechLevel entity.Profile.TechLevel) 0)) :
    ∀ (p : PrereqList) (exclude : Exclude) (buffer : Option ByteBuffer) (pfx : String),
      PrereqList.Satisfied x p entity exclude buffer pfx =
        PrereqList.Satisfied y p entity exclude buffer pfx
  | .mk all whenTL prereqs, exclude, buffer, pfx => by
    have hc := children_congr x y entity hAny hM prereqs exclude pfx
    unfold PrereqList.Satisfied
    simp only [techLevel_clamp, hAny, hM, hc]
theorem children_congr (x y : Externals) (entity : Entity)
    (hAny : x.AnyNumber = y.AnyNumber)
    (hM : ∀ c q, x.Matches c q (max (x.ExtractTechLevel entity.Profile.TechLevel) 0) =
      y.Matches c q (max (y.ExtractTechLevel entity.Profile.TechLevel) 0)) :
    ∀ (ps : List Prereq) (exclude : Exclude) (pfx : String) (count : Nat)
      (loc : Option ByteBuffer),
      PrereqList.children x ps entity exclude pfx count loc =
        PrereqList.children y ps entity exclude pfx count loc
  | [], exclude, pfx, count, loc => by
    simp only [PrereqList.children]
  | one :: rest, exclude, pfx, count, loc => by
    simp only [PrereqList.children]
    rw [prereq_satisfied_congr x y entity hAny hM one exclude loc pfx]
    exact children_congr x y entity hAny hM rest exclude pfx _ _
end

/-- C25: in PrereqList.Satisfied a comparator other than `any` is matched against
max(tl, 0), tl being the tech level extracted from the profile of the entity: when the
match fails the list is satisfied and the buffer untouched, when it succeeds the verdict
is that of the combinator over the children. Over a whole tree the result is the same
as with an extraction clamped at 0, a negative level gives the result of the level 0,
and the comparison is never consulted on a negative level. The result is a verdict in
every case: the extractor is taken by its first result, the only one the code keeps. -/
theorem techLevel_never_negative (x : Externals) (p : PrereqList) (entity : Entity)
    (exclude : Exclude) (buffer : Option ByteBuffer) (pfx : String) :
    (p.WhenTL.Compare ≠ x.AnyNumber →
        x.Matches p.WhenTL.Compare p.WhenTL.Qualifier
          (max (x.ExtractTechLevel entity.Profile.TechLevel) 0) = false →
        PrereqList.Satisfied x p entity exclude buffer pfx = (true, buffer)) ∧
      (p.WhenTL.Compare ≠ x.AnyNumber →
        x.Matches p.WhenTL.Compare p.WhenTL.Qualifier
          (max (x.ExtractTechLevel entity.Profile.TechLevel) 0) = true →
        (PrereqList.Satisfied x p entity exclude buffer pfx).1 =
          ((childVerdicts x p.Prereqs entity exclude (localBuffer buffer) pfx).count true
              == p.Prereqs.length ||
            (!p.All &&
              decide ((childVerdicts x p.Prereqs entity exclude (localBuffer buffer)
                pfx).count true > 0)))) ∧
      PrereqList.Satisfied x p entity exclude buffer pfx =
        PrereqList.Satisfied (x.mapTechLevel (fun tl => max tl 0)) p entity exclude buffer
          pfx ∧
      (x.ExtractTechLevel entity.Profile.TechLevel < 0 →
        PrereqList.Satisfied x p entity exclude buffer pfx =
          PrereqList.Satisfied (x.mapTechLevel (fun _ => 0)) p entity exclude buffer pfx) ∧
      (∀ y : Externals, y.AnyNumber = x.AnyNumber →
        y.ExtractTechLevel = x.ExtractTechLevel →
        (∀ c q d, 0 ≤ d → y.Matches c q d = x.Matches c q d) →
        PrereqList.Satisfied y p entity exclude buffer pfx =
          PrereqList.Satisfied x p entity exclude buffer pfx) := by
  refine ⟨?_, ?_, ?_, ?_, ?_⟩
  · intro hAny hM
    exact PrereqList.Satisfied_of_gate x p entity exclude buffer pfx ⟨hAny, hM⟩
  · intro _ hM
    refine PrereqList.Satisfied_verdict x p entity exclude buffer pfx ?_
    intro h
    rw [h.2] at hM
    exact Bool.noConfusion hM
  · refine list_satisfied_congr x (x.mapTechLevel (fun tl => max tl 0)) entity rfl ?_ p
      exclude buffer pfx
    intro c q
    simp only [Externals.mapTechLevel, max_assoc, max_self]
  · intro hNeg
    refine list_satisfied_congr x (x.mapTechLevel (fun _ => 0)) entity rfl ?_ p exclude
      buffer pfx
    intro c q
    simp only [Externals.mapTechLevel, max_self, max_eq_right (le_of_lt hNeg)]
  · intro y hAny hTL hM
    refine list_satisfied_congr y x entity hAny ?_ p exclude buffer pfx
    intro c q
    rw [hTL]
    exact hM c q _ (le_max_right _ _)

/-- C25, witness: with an extraction that yields -2, a list gated on a tech level of at
least 0 over a failing leaf is not satisfied, as at the level 0; were -2 compared, the
gate would fail and the list be satisfied. -/
theorem techLevel_never_negative_witness :
    negativeExternals.ExtractTechLevel sampleEntity.Profile.TechLevel < 0 ∧
      negativeExternals.Matches "at_least" 0
        (negativeExternals.ExtractTechLevel sampleEntity.Profile.TechLevel) = false ∧
      PrereqList.Satisfied negativeExternals gatedAtZero sampleEntity none none "" =
        (false, none) :=
  ⟨by decide, by decide,
    ((techLevel_never_negative negativeExternals gatedAtZero sampleEntity none none
      "").2.2.2.1 (by decide)).trans (by decide)⟩

/-- C27: when the verdict of every leaf of a list is independent of the buffer the leaf
is given, Satisfied returns the same verdict with a nil buffer as with a buffer of any
content, under the same entity, exclusion target and prefix. In both cases the loop
yields one verdict per child, and the counter after the loop is the number of satisfied
children among all of them, none being skipped after a failing or a succeeding one. -/
theorem verdict_independent_of_sink (x : Externals) (p : PrereqList) (entity : Entity)
    (exclude : Exclude) (b : ByteBuffer) (pfx : String) (hLeaves : p.sinkFree) :
    (PrereqList.Satisfied x p entity exclude none pfx).1 =
        (PrereqList.Satisfied x p entity exclude (some b) pfx).1 ∧
      (childVerdicts x p.Prereqs entity exclude (localBuffer none) pfx).length =
        p.Prereqs.length ∧
      (childVerdicts x p.Prereqs entity exclude (localBuffer (some b)) pfx).length =
        p.Prereqs.length ∧
      childVerdicts x p.Prereqs entity exclude (localBuffer none) pfx =
        childVerdicts x p.Prereqs entity exclude (localBuffer (some b)) pfx ∧
      (PrereqList.children x p.Prereqs entity exclude pfx 0 (localBuffer none)).1 =
        (childVerdicts x p.Prereqs entity exclude (localBuffer none) pfx).count true ∧
      (PrereqList.children x p.Prereqs entity exclude pfx 0 (localBuffer (some b))).1 =
        (childVerdicts x p.Prereqs entity exclude (localBuffer (some b)) pfx).count true := by
  refine ⟨list_verdict_sink x p hLeaves entity exclude none (some b) pfx,
    childVerdicts_length _ _ _ _ _ _, childVerdicts_length _ _ _ _ _ _, ?_, ?_, ?_⟩
  · cases p with
    | mk all whenTL prereqs =>
      simp only [PrereqList.sinkFree] at hLeaves
      exact childVerdicts_sink x prereqs hLeaves entity exclude _ _ pfx
  · rw [PrereqList.children_count, Nat.zero_add]
  · rw [PrereqList.children_count, Nat.zero_add]

/-- C27, witness: the sample list over a passing leaf and a nested failing leaf is not
satisfied, with a nil buffer and with a buffer that holds text. -/
theorem verdict_independent_of_sink_witness :
    deepAll.sinkFree ∧
      (PrereqList.Satisfied sampleExternals deepAll sampleEntity none none "\n").1 = false ∧
      (PrereqList.Satisfied sampleExternals deepAll sampleEntity none none "\n").1 =
        (PrereqList.Satisfied sampleExternals deepAll sampleEntity none
          (some ⟨"prior text"⟩) "\n").1 :=
  ⟨by simp [deepAll, PrereqList.sinkFree, PrereqList.sinkFreeAll, Prereq.sinkFree,
      passingLeaf, failingLeaf],
    by decide,
    (verdict_independent_of_sink sampleExternals deepAll sampleEntity none ⟨"prior text"⟩ "\n"
      (by simp [deepAll, PrereqList.sinkFree, PrereqList.sinkFreeAll, Prereq.sinkFree,
        passingLeaf, failingLeaf])).1⟩

theorem nest_depth (x : Externals) (all : Bool) (n : Nat) (one : Prereq) :
    (nest x all n one).depth = n + one.depth := by
  induction n with
  | zero => simp [nest]
  | succ n ih =>
    simp only [nest, Prereq.depth, PrereqList.depth, PrereqList.depthAll, ih]
    omega

theorem nest_satisfied (x : Externals) (all : Bool) (n : Nat) (one : Prereq) (entity : Entity)
    (exclude : Exclude) (pfx : String) :
    Prereq.Satisfied x (nest x all n one) entity exclude none pfx =
      ((Prereq.Satisfied x one entity exclude none pfx).1, none) := by
  induction n with
  | zero =>
    simp only [nest]
    exact Prod.ext rfl (Prereq.Satisfied_keeps_nil x one entity exclude pfx)
  | succ n ih =>
    simp only [nest, Prereq.Satisfied]
    unfold PrereqList.Satisfied
    simp only [PrereqList.children, ih]
    cases (Prereq.Satisfied x one entity exclude none pfx).1 <;> cases all <;> simp

theorem nest_sinkFree (x : Externals) (all : Bool) (n : Nat) (one : Prereq)
    (h : one.sinkFree) : (nest x all n one).sinkFree := by
  induction n with
  | zero => exact h
  | succ n ih =>
    simp only [nest, Prereq.sinkFree, PrereqList.sinkFree, PrereqList.sinkFreeAll]
    exact ⟨ih, trivial⟩

/-- C24, as the code has it: PrereqList.Satisfied has no ceiling on the nesting depth
and no failure outcome. For every number n, a prerequisite wrapped in n lists with an
`any` gate has a nesting depth of n more than its own, and Satisfied with a nil buffer
returns the verdict of the innermost prerequisite; so it does with any buffer when the
verdicts of the leaves are independent of the buffer. -/
theorem nesting_without_ceiling (x : Externals) (all : Bool) (n : Nat) (one : Prereq)
    (entity : Entity) (exclude : Exclude) (pfx : String) :
    (nest x all n one).depth = n + one.depth ∧
      Prereq.Satisfied x (nest x all n one) entity exclude none pfx =
        ((Prereq.Satisfied x one entity exclude none pfx).1, none) ∧
      (one.sinkFree → ∀ buffer : Option ByteBuffer,
        (Prereq.Satisfied x (nest x all n one) entity exclude buffer pfx).1 =
          (Prereq.Satisfied x one entity exclude none pfx).1) := by
  refine ⟨nest_depth x all n one, nest_satisfied x all n one entity exclude pfx, ?_⟩
  intro h buffer
  rw [prereq_verdict_sink x _ (nest_sinkFree x all n one h) entity exclude buffer none pfx,
    nest_satisfied]

/-- C24, witness: a failing leaf wrapped in three lists has depth 3 and the tree is not
satisfied. -/
theorem nesting_without_ceiling_witness :
    (nest sampleExternals true 3 (.leaf (failingLeaf "\nneeds A"))).depth = 3 ∧
      Prereq.Satisfied sampleExternals (nest sampleExternals true 3 (.leaf (failingLeaf "\nneeds A")))
        sampleEntity none none "" = (false, none) :=
  ⟨(nesting_without_ceiling sampleExternals true 3 (.leaf (failingLeaf "\nneeds A")) sampleEntity
      none "").1,
    (nesting_without_ceiling sampleExternals true 3 (.leaf (failingLeaf "\nneeds A")) sampleEntity
      none "").2.1⟩

/-- C24, counterexample: a tree of a million nested lists is evaluated down to its
innermost leaf, whose verdict decides the result: satisfied around a passing leaf, not
satisfied around a failing one. No ceiling stops the descent and nothing but a verdict
is returned. -/
theorem deep_tree_counterexample :
    (nest sampleExternals true 1000000 (.leaf passingLeaf)).depth = 1000000 ∧
      Prereq.Satisfied sampleExternals (nest sampleExternals true 1000000 (.leaf passingLeaf))
        sampleEntity none none "" = (true, none) ∧
      Prereq.Satisfied sampleExternals
        (nest sampleExternals true 1000000 (.leaf (failingLeaf "\nneeds A")))
        sampleEntity none none "" = (false, none) :=
  ⟨nest_depth sampleExternals true 1000000 (.leaf passingLeaf),
    nest_satisfied sampleExternals true 1000000 (.leaf passingLeaf) sampleEntity none "",
    nest_satisfied sampleExternals true 1000000 (.leaf (failingLeaf "\nneeds A")) sampleEntity
      none ""⟩

/-! ## Cloning re-parents and keeps the verdict -/

theorem forall₂_of_mem_left {α β : Type} {R : α → β → Prop} {l1 : List α} {l2 : List β}
    (h : List.Forall₂ R l1 l2) : ∀ c ∈ l1, ∃ o, o ∈ l2 ∧ R c o := by
  induction h with
  | nil => intro c hc; exact absurd hc (List.not_mem_nil _)
  | cons hco _ ih =>
    intro c hc
    rcases List.mem_cons.mp hc with h1 | h1
    · exact ⟨_, List.mem_cons_self _ _, h1 ▸ hco⟩
    · obtain ⟨o, ho, hR⟩ := ih c h1
      exact ⟨o, List.mem_cons_of_mem _ ho, hR⟩

theorem cloneChildren_forall₂ (lc : LeafClone) (ps : List PrereqNode)
    (parent : Option ListAddr) (next : ListAddr) :
    List.Forall₂ (fun c o => ∃ nx, c = (PrereqNode.Clone lc o parent nx).1)
      (PrereqListNode.cloneChildren lc ps parent next).1 ps := by
  induction ps generalizing next with
  | nil => exact List.Forall₂.nil
  | cons one rest ih =>
    simp only [PrereqListNode.cloneChildren]
    exact List.Forall₂.cons ⟨next, rfl⟩ (ih _)

theorem clone_parentList (lc : LeafClone) (one : PrereqNode) (parent : Option ListAddr)
    (next : ListAddr) :
    (PrereqNode.Clone lc one parent next).1.ParentList =
      match one with
      | .leaf par l => (lc par l parent).1
      | .list _ => parent := by
  cases one with
  | leaf par l => simp only [PrereqNode.Clone, PrereqNode.ParentList]
  | list p =>
    simp only [PrereqNode.Clone, PrereqNode.ParentList]
    exact (cloneAsPrereqList_fields lc p parent next).2.1

theorem leaf_eq_of_satisfied (l1 l2 : Leaf)
    (h : ∀ entity exclude buffer pfx,
      l1.Satisfied entity exclude buffer pfx = l2.Satisfied entity exclude buffer pfx) :
    l1 = l2 := by
  cases l1 with
  | mk f =>
    cases l2 with
    | mk g =>
      congr
      funext entity exclude buffer pfx
      exact h entity exclude buffer pfx

mutual
theorem clone_view (lc : LeafClone) (hEval : ∀ par l parent, (lc par l parent).2 = l) :
    ∀ (one : PrereqNode) (parent : Option ListAddr) (next : ListAddr),
      (PrereqNode.Clone lc one parent next).1.view = one.view
  | .leaf par l, parent, next => by
    simp only [PrereqNode.Clone, PrereqNode.view, hEval]
  | .list p, parent, next => by
    simp only [PrereqNode.Clone, PrereqNode.view]
    rw [cloneAsPrereqList_view lc hEval p parent next]
theorem cloneAsPrereqList_view (lc : LeafClone) (hEval : ∀ par l parent, (lc par l parent).2 = l) :
    ∀ (p : PrereqListNode) (parent : Option ListAddr) (next : ListAddr),
      (PrereqListNode.CloneAsPrereqList lc p parent next).1.view = p.view
  | .mk addr par ty all whenTL prereqs, parent, next => by
    simp only [PrereqListNode.CloneAsPrereqList, PrereqListNode.view]
    rw [cloneChildren_view lc hEval prereqs (some next) (next + 1)]
theorem cloneChildren_view (lc : LeafClone) (hEval : ∀ par l parent, (lc par l parent).2 = l) :
    ∀ (ps : List PrereqNode) (parent : Option ListAddr) (next : ListAddr),
      PrereqListNode.viewAll (PrereqListNode.cloneChildren lc ps parent next).1 =
        PrereqListNode.viewAll ps
  | [], _, _ => rfl
  | one :: rest, parent, next => by
    simp only [PrereqListNode.cloneChildren, PrereqListNode.viewAll]
    rw [clone_view lc hEval one parent next, cloneChildren_view lc hEval rest parent _]
end

/-- C29: the clone made by CloneAsPrereqList for the parent `q` is a new struct (at the
next free address, which is not that of an existing `p`) with Parent = `q` and the Type,
All and WhenTL of `p`; its children are, in the order of those of `p`, the clones of the
children of `p` made with the address of the clone as parent, so that a child that is a
list has the clone as its Parent, and so has every child when the Clone of a leaf takes
the parent it is given. When the clone of a leaf evaluates as the leaf does, Satisfied
on the clone returns what it returns on `p`, for every entity, exclusion target, buffer
and prefix. -/
theorem cloneAsPrereqList_reparents (lc : LeafClone) (x : Externals) (p : PrereqListNode)
    (q : Option ListAddr) (next : ListAddr) :
    (p.CloneAsPrereqList lc q next).1.Parent = q ∧
      (p.CloneAsPrereqList lc q next).1.Type_ = p.Type_ ∧
      (p.CloneAsPrereqList lc q next).1.All = p.All ∧
      (p.CloneAsPrereqList lc q next).1.WhenTL = p.WhenTL ∧
      (p.CloneAsPrereqList lc q next).1.addr = next ∧
      (p.addr < next → (p.CloneAsPrereqList lc q next).1.addr ≠ p.addr) ∧
      List.Forall₂
        (fun c o => ∃ nx,
          c = (PrereqNode.Clone lc o (some (p.CloneAsPrereqList lc q next).1.addr) nx).1)
        (p.CloneAsPrereqList lc q next).1.Prereqs p.Prereqs ∧
      (∀ r, PrereqNode.list r ∈ (p.CloneAsPrereqList lc q next).1.Prereqs →
        r.Parent = some (p.CloneAsPrereqList lc q next).1.addr) ∧
      ((∀ par l parent, (lc par l parent).1 = parent) →
        ∀ c ∈ (p.CloneAsPrereqList lc q next).1.Prereqs,
          c.ParentList = some (p.CloneAsPrereqList lc q next).1.addr) ∧
      ((∀ par l parent entity exclude buffer pfx,
          (lc par l parent).2.Satisfied entity exclude buffer pfx =
            l.Satisfied entity exclude buffer pfx) →
        ∀ entity exclude buffer pfx,
          PrereqList.Satisfied x (p.CloneAsPrereqList lc q next).1.view entity exclude buffer
              pfx =
            PrereqList.Satisfied x p.view entity exclude buffer pfx) := by
  have hf := cloneAsPrereqList_fields lc p q next
  have hAll : List.Forall₂
      (fun c o => ∃ nx,
        c = (PrereqNode.Clone lc o (some (p.CloneAsPrereqList lc q next).1.addr) nx).1)
      (p.CloneAsPrereqList lc q next).1.Prereqs p.Prereqs := by
    rw [hf.1]
    cases p with
    | mk addr par ty all whenTL prereqs =>
      simp only [PrereqListNode.CloneAsPrereqList, PrereqListNode.Prereqs]
      exact cloneChildren_forall₂ lc prereqs (some next) (next + 1)
  have hMem : ∀ c ∈ (p.CloneAsPrereqList lc q next).1.Prereqs, ∃ o nx,
      c = (PrereqNode.Clone lc o (some (p.CloneAsPrereqList lc q next).1.addr) nx).1 := by
    intro c hc
    obtain ⟨o, _, nx, h⟩ := forall₂_of_mem_left hAll c hc
    exact ⟨o, nx, h⟩
  refine ⟨hf.2.1, hf.2.2.1, hf.2.2.2.1, hf.2.2.2.2.1, hf.1, ?_, hAll, ?_, ?_, ?_⟩
  · intro hlt h
    rw [hf.1] at h
    exact Nat.ne_of_gt hlt h
  · intro r hr
    obtain ⟨o, nx, h⟩ := hMem _ hr
    have hp := clone_parentList lc o (some (p.CloneAsPrereqList lc q next).1.addr) nx
    rw [← h] at hp
    cases o with
    | leaf par l =>
      simp only [PrereqNode.Clone] at h
      exact PrereqNode.noConfusion h
    | list r0 => exact hp
  · intro hParent c hc
    obtain ⟨o, nx, h⟩ := hMem _ hc
    have hp := clone_parentList lc o (some (p.CloneAsPrereqList lc q next).1.addr) nx
    rw [← h] at hp
    cases o with
    | leaf par l => exact hp.trans (hParent _ _ _)
    | list r0 => exact hp
  · intro hEval entity exclude buffer pfx
    rw [cloneAsPrereqList_view lc
      (fun par l parent => leaf_eq_of_satisfied _ _ (hEval par l parent)) p q next]

/-- C29, witness: the clone of the sample list of address 3, made at address 10 for the
parent 9, has both children parented to 10, while those of the original stay parented
to 3, and evaluates as the original does. -/
theorem cloneAsPrereqList_reparents_witness :
    nestedNode.addr < 10 ∧
      (nestedNode.CloneAsPrereqList copyLeaf (some 9) 10).1.addr ≠ nestedNode.addr ∧
      (nestedNode.CloneAsPrereqList copyLeaf (some 9) 10).1.Prereqs.map PrereqNode.ParentList =
        [some 10, some 10] ∧
      nestedNode.Prereqs.map PrereqNode.ParentList = [some 3, some 3] ∧
      PrereqList.Satisfied sampleExternals
          (nestedNode.CloneAsPrereqList copyLeaf (some 9) 10).1.view sampleEntity none none "" =
        PrereqList.Satisfied sampleExternals nestedNode.view sampleEntity none none "" :=
  ⟨by decide,
    (cloneAsPrereqList_reparents copyLeaf sampleExternals nestedNode (some 9) 10).2.2.2.2.2.1
      (by decide),
    by decide, by decide,
    (cloneAsPrereqList_reparents copyLeaf sampleExternals nestedNode (some 9)
      10).2.2.2.2.2.2.2.2.2 (fun _ _ _ _ _ _ _ => rfl) sampleEntity none none ""⟩

/-! ## The sheet panels -/

/-- C26: NewPointPoolsPanel stores the checksum of the attribute definitions of the
sheet settings, the data the view is built from, and Sync compares the stored value
with the checksum of the attribute instances of the entity: it leaves the panel as it
is when the two are equal, and otherwise stores the checksum of the instances and
rebuilds from the definitions. So the first Sync after the construction rebuilds the
view whenever the checksum of the instances differs from that of the definitions,
though no data has changed; a second Sync then changes nothing. The body panel, beside
it, stores and compares the checksum of one and the same data, and its Sync right after
the construction changes nothing. -/
theorem pointPools_sync_after_new (x : AttributeExternals) (px : PanelExternals)
    (entity : SheetEntity) :
    (NewPointPoolsPanel px entity).crc =
        px.defsCRC64 (px.SheetSettingsFor entity.Entity).Attributes ∧
      (NewPointPoolsPanel px entity).rebuilt = [(px.SheetSettingsFor entity.Entity).Attributes] ∧
      (∀ p : PointPoolsPanel, p.entity.Attributes.CRC64 x = p.crc → p.Sync x px = p) ∧
      (∀ p : PointPoolsPanel, p.entity.Attributes.CRC64 x ≠ p.crc →
        p.Sync x px =
          ⟨p.entity, p.entity.Attributes.CRC64 x,
            (px.SheetSettingsFor p.entity.Entity).Attributes :: p.rebuilt⟩) ∧
      (entity.Attributes.CRC64 x ≠
          px.defsCRC64 (px.SheetSettingsFor entity.Entity).Attributes →
        ((NewPointPoolsPanel px entity).Sync x px).rebuilt =
            [(px.SheetSettingsFor entity.Entity).Attributes,
              (px.SheetSettingsFor entity.Entity).Attributes] ∧
          ((NewPointPoolsPanel px entity).Sync x px).crc = entity.Attributes.CRC64 x ∧
          ((NewPointPoolsPanel px entity).Sync x px).Sync x px =
            (NewPointPoolsPanel px entity).Sync x px) ∧
      (NewBodyPanel px entity).Sync px = NewBodyPanel px entity := by
  have hSame : ∀ p : PointPoolsPanel, p.entity.Attributes.CRC64 x = p.crc →
      p.Sync x px = p := by
    intro p h
    unfold PointPoolsPanel.Sync
    simp only [h, ne_eq, not_true_eq_false, if_false]
  have hDiff : ∀ p : PointPoolsPanel, p.entity.Attributes.CRC64 x ≠ p.crc →
      p.Sync x px =
        ⟨p.entity, p.entity.Attributes.CRC64 x,
          (px.SheetSettingsFor p.entity.Entity).Attributes :: p.rebuilt⟩ := by
    intro p h
    unfold PointPoolsPanel.Sync
    simp only [if_pos h]
    rfl
  refine ⟨rfl, rfl, hSame, hDiff, ?_, ?_⟩
  · intro h
    have h1 : (NewPointPoolsPanel px entity).Sync x px =
        ⟨entity, entity.Attributes.CRC64 x,
          [(px.SheetSettingsFor entity.Entity).Attributes,
            (px.SheetSettingsFor entity.Entity).Attributes]⟩ := hDiff _ h
    rw [h1]
    exact ⟨rfl, rfl, hSame _ rfl⟩
  · unfold BodyPanel.Sync
    simp [NewBodyPanel, BodyPanel.addContent]

/-- C26, on the sample entity as NewAttributes leaves it: the checksum of the instances
is 90366 and that of the definitions 6984, and the Sync that follows the construction
rebuilds the view a second time and replaces the stored checksum. -/
theorem pointPools_sync_after_new_witness :
    sampleSheetEntity.Attributes.CRC64 sampleAttributeExternals = 90366 ∧
      (NewPointPoolsPanel samplePanelExternals sampleSheetEntity).crc = 6984 ∧
      ((NewPointPoolsPanel samplePanelExternals sampleSheetEntity).Sync sampleAttributeExternals
        samplePanelExternals).rebuilt =
        [sampleSheetSettings.Attributes, sampleSheetSettings.Attributes] ∧
      ((NewPointPoolsPanel samplePanelExternals sampleSheetEntity).Sync sampleAttributeExternals
        samplePanelExternals).crc = 90366 :=
  ⟨by decide, by decide,
    ((pointPools_sync_after_new sampleAttributeExternals samplePanelExternals
      sampleSheetEntity).2.2.2.2.1 (by decide)).1,
    (((pointPools_sync_after_new sampleAttributeExternals samplePanelExternals
      sampleSheetEntity).2.2.2.2.1 (by decide)).2.1).trans (by decide)⟩

end Gcs
